import Mathlib

/-!
# Plandex model catalog and sign-in URL helper

A verification development for two source files of the Plandex repository:

* `app/shared/ai_models_available.go`: the catalog `AvailableModels`, the start-up pass
  `init` that validates every record and fills `AvailableModelsByComposite`, and the lookup
  `GetAvailableModel`;
* `app/cli/ui/ui.go`: `OpenAuthenticatedURL` and `OpenUnauthenticatedCloudURL`.

Go values are embedded as follows. Go `int` fields are `Int`, and `int` arithmetic wraps
around at 64 bits (`wrapInt`). The strings of the catalog are Lean strings (only equality,
emptiness and concatenation are used on them). A Go map is an association list with at most
one entry per key. A panic is an explicit result value.
-/

namespace Plandex

/-! ## Data model of `ai_models_available.go` -/

/-- The Go type `ModelCompatibility`; only its field `HasImageSupport` is written by the
catalog. -/
structure ModelCompatibility where
  HasImageSupport : Bool := false
  deriving DecidableEq, Repr

/-- The Go type `BaseModelConfig`, with the fields the catalog literals and `init` use. A field
left out of a Go composite literal holds its zero value, which is the default given here. -/
structure BaseModelConfig where
  Provider : String := ""
  ModelName : String := ""
  ModelId : String := ""
  MaxTokens : Int := 0
  MaxOutputTokens : Int := 0
  ReservedOutputTokens : Int := 0
  SupportsCacheControl : Bool := false
  ApiKeyEnvVar : String := ""
  ModelCompatibility : ModelCompatibility := {}
  BaseUrl : String := ""
  PreferredModelOutputFormat : String := ""
  RoleParamsDisabled : Bool := false
  SystemPromptDisabled : Bool := false
  ReasoningEffortEnabled : Bool := false
  ReasoningEffort : String := ""
  PredictedOutputEnabled : Bool := false
  IncludeReasoning : Bool := false
  deriving DecidableEq, Repr

/-- The Go type `AvailableModel`: it embeds `BaseModelConfig`, so the fields of the latter are
read directly on a record (`model.Provider`), as `extends` provides here. -/
structure AvailableModel extends BaseModelConfig where
  Description : String := ""
  DefaultMaxConvoTokens : Int := 0
  deriving DecidableEq, Repr

/-- The package-level constants and tables that the catalog refers to. Their declarations are
in another file of the package, so their values are a parameter of the catalog.
`ApiKeyByProvider` and `BaseUrlByProvider` are Go maps read by indexing, which yields the empty
string for a key that is not present. -/
structure ModelConsts where
  ModelProviderOpenAI : String
  ModelProviderOpenRouter : String
  OpenAIEnvVar : String
  OpenAIV1BaseUrl : String
  ApiKeyByProvider : String → String
  BaseUrlByProvider : String → String
  ModelOutputFormatToolCallJson : String
  ModelOutputFormatXml : String
  ReasoningEffortLow : String
  ReasoningEffortMedium : String
  ReasoningEffortHigh : String
  fullCompatibility : ModelCompatibility

/-- What the catalog needs of the constants for `init` to build a full index: the strings
checked by `init` are non-empty and the two provider names differ. -/
structure ModelConsts.WellFormed (c : ModelConsts) : Prop where
  openAI_ne : c.ModelProviderOpenAI ≠ ""
  openRouter_ne : c.ModelProviderOpenRouter ≠ ""
  providers_ne : c.ModelProviderOpenAI ≠ c.ModelProviderOpenRouter
  envVar_ne : c.OpenAIEnvVar ≠ ""
  baseUrl_ne : c.OpenAIV1BaseUrl ≠ ""
  routerKey_ne : c.ApiKeyByProvider c.ModelProviderOpenRouter ≠ ""
  routerUrl_ne : c.BaseUrlByProvider c.ModelProviderOpenRouter ≠ ""
  json_ne : c.ModelOutputFormatToolCallJson ≠ ""
  xml_ne : c.ModelOutputFormatXml ≠ ""

/-- Modelled from the spec: the declarations of the constants are not among the source files.
The spec names the OpenAI provider `"openai"`; the other values are representative non-empty
strings, used where a concrete instance of the constants is needed. -/
def sampleConsts : ModelConsts where
  ModelProviderOpenAI := "openai"
  ModelProviderOpenRouter := "openrouter"
  OpenAIEnvVar := "OPENAI_API_KEY"
  OpenAIV1BaseUrl := "https://api.openai.com/v1"
  ApiKeyByProvider := fun p => if p = "openrouter" then "OPENROUTER_API_KEY" else ""
  BaseUrlByProvider := fun p => if p = "openrouter" then "https://openrouter.ai/api/v1" else ""
  ModelOutputFormatToolCallJson := "tool-call-json"
  ModelOutputFormatXml := "xml"
  ReasoningEffortLow := "low"
  ReasoningEffortMedium := "medium"
  ReasoningEffortHigh := "high"
  fullCompatibility := { HasImageSupport := true }

/-- The six records of the group `Direct OpenAI models` of `AvailableModels`. -/
def openAIModels (c : ModelConsts) : List AvailableModel := [
  { Description := "OpenAI o3-mini-high", DefaultMaxConvoTokens := 10000,
    Provider := c.ModelProviderOpenAI, ModelName := "o3-mini", ModelId := "openai/o3-mini-high",
    MaxTokens := 200000, MaxOutputTokens := 100000, ReservedOutputTokens := 30000,
    ApiKeyEnvVar := c.OpenAIEnvVar, ModelCompatibility := c.fullCompatibility,
    BaseUrl := c.OpenAIV1BaseUrl, PreferredModelOutputFormat := c.ModelOutputFormatToolCallJson,
    RoleParamsDisabled := true, ReasoningEffortEnabled := true,
    ReasoningEffort := c.ReasoningEffortHigh },
  { Description := "OpenAI o3-mini-medium", DefaultMaxConvoTokens := 10000,
    Provider := c.ModelProviderOpenAI, ModelName := "o3-mini",
    ModelId := "openai/o3-mini-medium",
    MaxTokens := 200000, MaxOutputTokens := 100000, ReservedOutputTokens := 40000,
    ApiKeyEnvVar := c.OpenAIEnvVar, ModelCompatibility := c.fullCompatibility,
    BaseUrl := c.OpenAIV1BaseUrl, PreferredModelOutputFormat := c.ModelOutputFormatToolCallJson,
    RoleParamsDisabled := true, ReasoningEffortEnabled := true,
    ReasoningEffort := c.ReasoningEffortMedium },
  { Description := "OpenAI o3-mini-low", DefaultMaxConvoTokens := 10000,
    Provider := c.ModelProviderOpenAI, ModelName := "o3-mini", ModelId := "openai/o3-mini-low",
    MaxTokens := 200000, MaxOutputTokens := 100000, ReservedOutputTokens := 40000,
    ApiKeyEnvVar := c.OpenAIEnvVar, ModelCompatibility := c.fullCompatibility,
    BaseUrl := c.OpenAIV1BaseUrl, PreferredModelOutputFormat := c.ModelOutputFormatToolCallJson,
    RoleParamsDisabled := true, ReasoningEffortEnabled := true,
    ReasoningEffort := c.ReasoningEffortLow },
  { Description := "OpenAI o1", DefaultMaxConvoTokens := 15000,
    Provider := c.ModelProviderOpenAI, ModelName := "o1", ModelId := "openai/o1",
    MaxTokens := 200000, MaxOutputTokens := 100000, ReservedOutputTokens := 40000,
    ApiKeyEnvVar := c.OpenAIEnvVar, ModelCompatibility := c.fullCompatibility,
    BaseUrl := c.OpenAIV1BaseUrl, PreferredModelOutputFormat := c.ModelOutputFormatXml,
    SystemPromptDisabled := true, RoleParamsDisabled := true },
  { Description := "OpenAI gpt-4o", DefaultMaxConvoTokens := 10000,
    Provider := c.ModelProviderOpenAI, ModelName := "gpt-4o", ModelId := "openai/gpt-4o",
    MaxTokens := 128000, MaxOutputTokens := 16384, ReservedOutputTokens := 16384,
    ApiKeyEnvVar := c.OpenAIEnvVar, ModelCompatibility := c.fullCompatibility,
    BaseUrl := c.OpenAIV1BaseUrl, PreferredModelOutputFormat := c.ModelOutputFormatToolCallJson,
    PredictedOutputEnabled := true },
  { Description := "OpenAI gpt-4o-mini", DefaultMaxConvoTokens := 10000,
    Provider := c.ModelProviderOpenAI, ModelName := "gpt-4o-mini",
    ModelId := "openai/gpt-4o-mini",
    MaxTokens := 128000, MaxOutputTokens := 16384, ReservedOutputTokens := 16384,
    ApiKeyEnvVar := c.OpenAIEnvVar, ModelCompatibility := c.fullCompatibility,
    BaseUrl := c.OpenAIV1BaseUrl, PreferredModelOutputFormat := c.ModelOutputFormatToolCallJson,
    PredictedOutputEnabled := true } ]

/-- The eighteen records of the groups `OpenRouter models` and `OpenAI models via OpenRouter`
of `AvailableModels` (the two records commented out in the source are not part of it). -/
def openRouterModels (c : ModelConsts) : List AvailableModel := [
  { Provider := c.ModelProviderOpenRouter,
    ApiKeyEnvVar := c.ApiKeyByProvider c.ModelProviderOpenRouter,
    BaseUrl := c.BaseUrlByProvider c.ModelProviderOpenRouter,
    Description := "Anthropic Claude 3.7 Sonnet via OpenRouter", DefaultMaxConvoTokens := 15000,
    ModelName := "anthropic/claude-3.7-sonnet", ModelId := "anthropic/claude-3.7-sonnet",
    MaxTokens := 200000, MaxOutputTokens := 128000, ReservedOutputTokens := 20000,
    SupportsCacheControl := true, ModelCompatibility := c.fullCompatibility,
    PreferredModelOutputFormat := c.ModelOutputFormatXml },
  { Provider := c.ModelProviderOpenRouter,
    ApiKeyEnvVar := c.ApiKeyByProvider c.ModelProviderOpenRouter,
    BaseUrl := c.BaseUrlByProvider c.ModelProviderOpenRouter,
    Description := "Anthropic Claude 3.5 Sonnet via OpenRouter", DefaultMaxConvoTokens := 15000,
    ModelName := "anthropic/claude-3.5-sonnet", ModelId := "anthropic/claude-3.5-sonnet",
    MaxTokens := 200000, MaxOutputTokens := 128000, ReservedOutputTokens := 20000,
    SupportsCacheControl := true, ModelCompatibility := c.fullCompatibility,
    PreferredModelOutputFormat := c.ModelOutputFormatXml },
  { Provider := c.ModelProviderOpenRouter,
    ApiKeyEnvVar := c.ApiKeyByProvider c.ModelProviderOpenRouter,
    BaseUrl := c.BaseUrlByProvider c.ModelProviderOpenRouter,
    Description := "Anthropic Claude 3.5 Haiku via OpenRouter", DefaultMaxConvoTokens := 15000,
    ModelName := "anthropic/claude-3.5-haiku", ModelId := "anthropic/claude-3.5-haiku",
    MaxTokens := 200000, MaxOutputTokens := 8192, ReservedOutputTokens := 8192,
    SupportsCacheControl := true, ModelCompatibility := c.fullCompatibility,
    PreferredModelOutputFormat := c.ModelOutputFormatXml },
  { Provider := c.ModelProviderOpenRouter,
    ApiKeyEnvVar := c.ApiKeyByProvider c.ModelProviderOpenRouter,
    BaseUrl := c.BaseUrlByProvider c.ModelProviderOpenRouter,
    Description := "Google Gemini Pro 1.5 via OpenRouter", DefaultMaxConvoTokens := 100000,
    ModelName := "google/gemini-pro-1.5", ModelId := "google/gemini-pro-1.5",
    MaxTokens := 2000000, MaxOutputTokens := 8192, ReservedOutputTokens := 8192,
    ModelCompatibility := c.fullCompatibility,
    PreferredModelOutputFormat := c.ModelOutputFormatXml },
  { Provider := c.ModelProviderOpenRouter,
    ApiKeyEnvVar := c.ApiKeyByProvider c.ModelProviderOpenRouter,
    BaseUrl := c.BaseUrlByProvider c.ModelProviderOpenRouter,
    Description := "Google Gemini Pro 2.0 Experimental via OpenRouter",
    DefaultMaxConvoTokens := 100000,
    ModelName := "google/gemini-2.0-pro-exp-02-05:free",
    ModelId := "google/gemini-2.0-pro-exp-02-05:free",
    MaxTokens := 2000000, MaxOutputTokens := 8192, ReservedOutputTokens := 8192,
    ModelCompatibility := c.fullCompatibility,
    PreferredModelOutputFormat := c.ModelOutputFormatXml },
  { Provider := c.ModelProviderOpenRouter,
    ApiKeyEnvVar := c.ApiKeyByProvider c.ModelProviderOpenRouter,
    BaseUrl := c.BaseUrlByProvider c.ModelProviderOpenRouter,
    Description := "Google Gemini Flash 2.0 via OpenRouter", DefaultMaxConvoTokens := 75000,
    ModelName := "google/gemini-2.0-flash-001", ModelId := "google/gemini-2.0-flash-001",
    MaxTokens := 1000000, MaxOutputTokens := 8192, ReservedOutputTokens := 8192,
    ModelCompatibility := c.fullCompatibility,
    PreferredModelOutputFormat := c.ModelOutputFormatXml },
  { Provider := c.ModelProviderOpenRouter,
    ApiKeyEnvVar := c.ApiKeyByProvider c.ModelProviderOpenRouter,
    BaseUrl := c.BaseUrlByProvider c.ModelProviderOpenRouter,
    Description := "DeepSeek V3 via OpenRouter", DefaultMaxConvoTokens := 7500,
    ModelName := "deepseek/deepseek-chat", ModelId := "deepseek/deepseek-chat",
    MaxTokens := 64000, MaxOutputTokens := 8192, ReservedOutputTokens := 8192,
    ModelCompatibility := { HasImageSupport := false },
    PreferredModelOutputFormat := c.ModelOutputFormatXml },
  { Provider := c.ModelProviderOpenRouter,
    ApiKeyEnvVar := c.ApiKeyByProvider c.ModelProviderOpenRouter,
    BaseUrl := c.BaseUrlByProvider c.ModelProviderOpenRouter,
    Description := "DeepSeek R1 via OpenRouter (includes reasoning)",
    DefaultMaxConvoTokens := 7500,
    ModelName := "deepseek/deepseek-r1", ModelId := "deepseek/deepseek-r1-reasoning",
    MaxTokens := 64000, MaxOutputTokens := 8192, ReservedOutputTokens := 8192,
    ModelCompatibility := { HasImageSupport := false },
    PreferredModelOutputFormat := c.ModelOutputFormatXml, IncludeReasoning := true },
  { Provider := c.ModelProviderOpenRouter,
    ApiKeyEnvVar := c.ApiKeyByProvider c.ModelProviderOpenRouter,
    BaseUrl := c.BaseUrlByProvider c.ModelProviderOpenRouter,
    Description := "DeepSeek R1 via OpenRouter (reasoning hidden)",
    DefaultMaxConvoTokens := 7500,
    ModelName := "deepseek/deepseek-r1", ModelId := "deepseek/deepseek-r1-no-reasoning",
    MaxTokens := 64000, MaxOutputTokens := 8192, ReservedOutputTokens := 8192,
    ModelCompatibility := { HasImageSupport := false },
    PreferredModelOutputFormat := c.ModelOutputFormatXml },
  { Provider := c.ModelProviderOpenRouter,
    ApiKeyEnvVar := c.ApiKeyByProvider c.ModelProviderOpenRouter,
    BaseUrl := c.BaseUrlByProvider c.ModelProviderOpenRouter,
    Description := "Perplexity R1 1776 via OpenRouter (includes reasoning)",
    DefaultMaxConvoTokens := 7500,
    ModelName := "perplexity/r1-1776", ModelId := "perplexity/r1-1776",
    MaxTokens := 128000, MaxOutputTokens := 128000, ReservedOutputTokens := 30000,
    ModelCompatibility := { HasImageSupport := false },
    PreferredModelOutputFormat := c.ModelOutputFormatXml, IncludeReasoning := true },
  { Provider := c.ModelProviderOpenRouter,
    ApiKeyEnvVar := c.ApiKeyByProvider c.ModelProviderOpenRouter,
    BaseUrl := c.BaseUrlByProvider c.ModelProviderOpenRouter,
    Description := "Perplexity Sonar Reasoning via OpenRouter (includes reasoning)",
    DefaultMaxConvoTokens := 7500,
    ModelName := "perplexity/sonar-reasoning", ModelId := "perplexity/sonar-reasoning",
    MaxTokens := 127000, MaxOutputTokens := 127000, ReservedOutputTokens := 30000,
    ModelCompatibility := { HasImageSupport := false },
    PreferredModelOutputFormat := c.ModelOutputFormatXml, IncludeReasoning := true },
  { Provider := c.ModelProviderOpenRouter,
    ApiKeyEnvVar := c.ApiKeyByProvider c.ModelProviderOpenRouter,
    BaseUrl := c.BaseUrlByProvider c.ModelProviderOpenRouter,
    Description := "Qwen 2.5 Coder 32B via OpenRouter", DefaultMaxConvoTokens := 10000,
    ModelName := "qwen/qwen-2.5-coder-32b-instruct",
    ModelId := "qwen/qwen-2.5-coder-32b-instruct",
    MaxTokens := 128000, MaxOutputTokens := 8192, ReservedOutputTokens := 8192,
    ModelCompatibility := c.fullCompatibility,
    PreferredModelOutputFormat := c.ModelOutputFormatXml },
  { Provider := c.ModelProviderOpenRouter,
    ApiKeyEnvVar := c.ApiKeyByProvider c.ModelProviderOpenRouter,
    BaseUrl := c.BaseUrlByProvider c.ModelProviderOpenRouter,
    Description := "OpenAI o3-mini-high via OpenRouter", DefaultMaxConvoTokens := 10000,
    ModelName := "openai/o3-mini", ModelId := "openai/o3-mini-high",
    MaxTokens := 200000, MaxOutputTokens := 100000, ReservedOutputTokens := 40000,
    ModelCompatibility := c.fullCompatibility,
    PreferredModelOutputFormat := c.ModelOutputFormatToolCallJson,
    SystemPromptDisabled := true, RoleParamsDisabled := true,
    ReasoningEffortEnabled := true, ReasoningEffort := c.ReasoningEffortHigh },
  { Provider := c.ModelProviderOpenRouter,
    ApiKeyEnvVar := c.ApiKeyByProvider c.ModelProviderOpenRouter,
    BaseUrl := c.BaseUrlByProvider c.ModelProviderOpenRouter,
    Description := "OpenAI o3-mini-medium via OpenRouter", DefaultMaxConvoTokens := 10000,
    ModelName := "openai/o3-mini", ModelId := "openai/o3-mini-medium",
    MaxTokens := 200000, MaxOutputTokens := 100000, ReservedOutputTokens := 40000,
    ModelCompatibility := c.fullCompatibility,
    PreferredModelOutputFormat := c.ModelOutputFormatToolCallJson,
    SystemPromptDisabled := true, RoleParamsDisabled := true,
    ReasoningEffortEnabled := true, ReasoningEffort := c.ReasoningEffortMedium },
  { Provider := c.ModelProviderOpenRouter,
    ApiKeyEnvVar := c.ApiKeyByProvider c.ModelProviderOpenRouter,
    BaseUrl := c.BaseUrlByProvider c.ModelProviderOpenRouter,
    Description := "OpenAI o3-mini-low via OpenRouter", DefaultMaxConvoTokens := 10000,
    ModelName := "openai/o3-mini", ModelId := "openai/o3-mini-low",
    MaxTokens := 200000, MaxOutputTokens := 100000, ReservedOutputTokens := 40000,
    ModelCompatibility := c.fullCompatibility,
    PreferredModelOutputFormat := c.ModelOutputFormatToolCallJson,
    SystemPromptDisabled := true, RoleParamsDisabled := true,
    ReasoningEffortEnabled := true, ReasoningEffort := c.ReasoningEffortLow },
  { Provider := c.ModelProviderOpenRouter,
    ApiKeyEnvVar := c.ApiKeyByProvider c.ModelProviderOpenRouter,
    BaseUrl := c.BaseUrlByProvider c.ModelProviderOpenRouter,
    Description := "OpenAI o1 via OpenRouter", DefaultMaxConvoTokens := 15000,
    ModelName := "openai/o1", ModelId := "openai/o1",
    MaxTokens := 200000, MaxOutputTokens := 100000, ReservedOutputTokens := 40000,
    ModelCompatibility := c.fullCompatibility,
    PreferredModelOutputFormat := c.ModelOutputFormatXml,
    SystemPromptDisabled := true, RoleParamsDisabled := true },
  { Provider := c.ModelProviderOpenRouter,
    ApiKeyEnvVar := c.ApiKeyByProvider c.ModelProviderOpenRouter,
    BaseUrl := c.BaseUrlByProvider c.ModelProviderOpenRouter,
    Description := "OpenAI gpt-4o via OpenRouter", DefaultMaxConvoTokens := 10000,
    ModelName := "openai/gpt-4o", ModelId := "openai/gpt-4o",
    MaxTokens := 128000, MaxOutputTokens := 16384, ReservedOutputTokens := 16384,
    ModelCompatibility := c.fullCompatibility,
    PreferredModelOutputFormat := c.ModelOutputFormatToolCallJson,
    PredictedOutputEnabled := true },
  { Provider := c.ModelProviderOpenRouter,
    ApiKeyEnvVar := c.ApiKeyByProvider c.ModelProviderOpenRouter,
    BaseUrl := c.BaseUrlByProvider c.ModelProviderOpenRouter,
    Description := "OpenAI gpt-4o-mini via OpenRouter", DefaultMaxConvoTokens := 10000,
    ModelName := "openai/gpt-4o-mini", ModelId := "openai/gpt-4o-mini",
    MaxTokens := 128000, MaxOutputTokens := 16384, ReservedOutputTokens := 16384,
    ModelCompatibility := c.fullCompatibility,
    PreferredModelOutputFormat := c.ModelOutputFormatToolCallJson,
    PredictedOutputEnabled := true } ]

/-- The package variable `AvailableModels`: the catalog, in source order. -/
def AvailableModels (c : ModelConsts) : List AvailableModel :=
  openAIModels c ++ openRouterModels c

/-! ## The index and `init` -/

/-- The Go type `map[string]*AvailableModel`: an association list holding one entry per key. -/
abbrev ModelMap := List (String × AvailableModel)

/-- Go map read `m[k]`: the stored value, or `none` for the nil pointer of an absent key. -/
def mapGet : ModelMap → String → Option AvailableModel
  | [], _ => none
  | (k', v) :: rest, k => if k' = k then some v else mapGet rest k

/-- Go map write `m[k] = v`: replaces the value of an existing key, adds the key otherwise. -/
def mapSet : ModelMap → String → AvailableModel → ModelMap
  | [], k, v => [(k, v)]
  | (k', v') :: rest, k, v =>
    if k' = k then (k, v) :: rest else (k', v') :: mapSet rest k v

/-- The expression `string(model.Provider) + "/" + string(model.ModelId)` of `init` and of
`GetAvailableModel`. -/
def compositeKey (provider modelId : String) : String :=
  provider ++ "/" ++ modelId

/-- The chain of checks in the body of the loop of `init`, in source order: the message of the
first `panic` reached for the record, or `none` when the record passes all ten checks. -/
def checkModel (model : AvailableModel) : Option String :=
  if model.Description = "" then some "description is not set"
  else if model.Provider = "" then some "model provider is not set"
  else if model.ModelId = "" then some "model id is not set"
  else if model.DefaultMaxConvoTokens = 0 then some "default max convo tokens is not set"
  else if model.MaxTokens = 0 then some "max tokens is not set"
  else if model.MaxOutputTokens = 0 then some "max output tokens is not set"
  else if model.ReservedOutputTokens = 0 then some "reserved output tokens is not set"
  else if model.ApiKeyEnvVar = "" then some "api key env var is not set"
  else if model.BaseUrl = "" then some "base url is not set"
  else if model.PreferredModelOutputFormat = "" then
    some "preferred model output format is not set"
  else none

/-- The abort of `init`: the record written by `spew.Dump` and the message of the `panic`. -/
structure Panic where
  dumped : AvailableModel
  message : String
  deriving DecidableEq, Repr

/-- The state in which `init` ends: the map `AvailableModelsByComposite` as it was left, and
the panic that stopped the loop, if any. -/
structure InitResult where
  index : ModelMap
  panic : Option Panic
  deriving DecidableEq, Repr

/-- The loop of `init` over the records that remain, from the map filled so far. -/
def initLoop : List AvailableModel → ModelMap → InitResult
  | [], idx => { index := idx, panic := none }
  | model :: rest, idx =>
    match checkModel model with
    | some msg => { index := idx, panic := some { dumped := model, message := msg } }
    | none => initLoop rest (mapSet idx (compositeKey model.Provider model.ModelId) model)

/-- The function `init` run on a catalog: the loop from the empty map
`AvailableModelsByComposite = map[string]*AvailableModel{}`. -/
def init (models : List AvailableModel) : InitResult :=
  initLoop models []

/-- The package variable `AvailableModelsByComposite` once `init` has run on the catalog. -/
def AvailableModelsByComposite (c : ModelConsts) : ModelMap :=
  (init (AvailableModels c)).index

/-- The function `GetAvailableModel`, reading the given state of the index. -/
def GetAvailableModel (idx : ModelMap) (provider modelId : String) : Option AvailableModel :=
  mapGet idx (compositeKey provider modelId)

/-- The values of the Go type `int`, here of 64 bits: the integers from `-2^63` to
`2^63 - 1`. -/
def IsGoInt (x : Int) : Prop :=
  -9223372036854775808 ≤ x ∧ x ≤ 9223372036854775807

instance (x : Int) : Decidable (IsGoInt x) := by
  unfold IsGoInt; infer_instance

/-- The result of Go `int` arithmetic for the exact result `x`: the value between `-2^63` and
`2^63 - 1` that differs from `x` by a multiple of `2^64` (overflow wraps around). -/
def wrapInt (x : Int) : Int :=
  (x + 9223372036854775808) % 18446744073709551616 - 9223372036854775808

/-- The effective input limit of the documentation, `MaxTokens - ReservedOutputTokens`, as the
Go expression on two `int` fields computes it. -/
def EffectiveInputLimit (model : AvailableModel) : Int :=
  wrapInt (model.MaxTokens - model.ReservedOutputTokens)

/-- The ten required fields of a record are all set: the strings non-empty, the integers
non-zero. -/
def Complete (model : AvailableModel) : Prop :=
  model.Description ≠ "" ∧ model.Provider ≠ "" ∧ model.ModelId ≠ "" ∧
  model.DefaultMaxConvoTokens ≠ 0 ∧ model.MaxTokens ≠ 0 ∧ model.MaxOutputTokens ≠ 0 ∧
  model.ReservedOutputTokens ≠ 0 ∧ model.ApiKeyEnvVar ≠ "" ∧ model.BaseUrl ≠ "" ∧
  model.PreferredModelOutputFormat ≠ ""

instance (model : AvailableModel) : Decidable (Complete model) := by
  unfold Complete; infer_instance

/-! ## Auxiliary definitions for the catalog proofs -/

/-- The entry under which `init` files a record. -/
def entryOf (model : AvailableModel) : String × AvailableModel :=
  (compositeKey model.Provider model.ModelId, model)

/-- The first model id ends in a slash followed by the second one. -/
def endsInSlash (m₁ m₂ : String) : Bool :=
  ('/' :: m₂.data).isSuffixOf m₁.data

/-! ## Concrete records used to instantiate the theorems -/

/-- The record `OpenAI gpt-4o` of the catalog, at the constants `sampleConsts`. -/
def sampleGpt4o : AvailableModel :=
  { Description := "OpenAI gpt-4o", DefaultMaxConvoTokens := 10000,
    Provider := "openai", ModelName := "gpt-4o", ModelId := "openai/gpt-4o",
    MaxTokens := 128000, MaxOutputTokens := 16384, ReservedOutputTokens := 16384,
    ApiKeyEnvVar := "OPENAI_API_KEY", ModelCompatibility := { HasImageSupport := true },
    BaseUrl := "https://api.openai.com/v1", PreferredModelOutputFormat := "tool-call-json",
    PredictedOutputEnabled := true }

/-- The record `OpenAI o1` of the catalog, at the constants `sampleConsts`. -/
def sampleO1 : AvailableModel :=
  { Description := "OpenAI o1", DefaultMaxConvoTokens := 15000,
    Provider := "openai", ModelName := "o1", ModelId := "openai/o1",
    MaxTokens := 200000, MaxOutputTokens := 100000, ReservedOutputTokens := 40000,
    ApiKeyEnvVar := "OPENAI_API_KEY", ModelCompatibility := { HasImageSupport := true },
    BaseUrl := "https://api.openai.com/v1", PreferredModelOutputFormat := "xml",
    SystemPromptDisabled := true, RoleParamsDisabled := true }

/-- A record with all ten required fields set whose reserved output exceeds its context
window: `init` has no check that relates the two limits. -/
def overReserved : AvailableModel :=
  { Description := "over-reserved model", DefaultMaxConvoTokens := 500,
    Provider := "custom", ModelName := "m", ModelId := "custom/m",
    MaxTokens := 1000, MaxOutputTokens := 1000, ReservedOutputTokens := 2000,
    ApiKeyEnvVar := "CUSTOM_API_KEY", BaseUrl := "https://custom.example.com/v1",
    PreferredModelOutputFormat := "xml" }

/-- A record with all ten required fields set. -/
def dupFirst : AvailableModel :=
  { Description := "first variant", DefaultMaxConvoTokens := 500,
    Provider := "custom", ModelName := "m-a", ModelId := "custom/m",
    MaxTokens := 1000, MaxOutputTokens := 200, ReservedOutputTokens := 100,
    ApiKeyEnvVar := "CUSTOM_API_KEY", BaseUrl := "https://custom.example.com/v1",
    PreferredModelOutputFormat := "xml" }

/-- A second complete record with the `Provider` and `ModelId` of `dupFirst`. -/
def dupSecond : AvailableModel :=
  { Description := "second variant", DefaultMaxConvoTokens := 700,
    Provider := "custom", ModelName := "m-b", ModelId := "custom/m",
    MaxTokens := 2000, MaxOutputTokens := 400, ReservedOutputTokens := 300,
    ApiKeyEnvVar := "CUSTOM_API_KEY", BaseUrl := "https://custom.example.com/v1",
    PreferredModelOutputFormat := "xml" }

/-! ## The states of the loop of `init` -/

/-- A state of the loop of `init`: the records still to visit, the map
`AvailableModelsByComposite` as filled so far, and the panic that has stopped the loop, if
any. -/
structure LoopState where
  remaining : List AvailableModel
  index : ModelMap
  panic : Option Panic
  deriving DecidableEq, Repr

/-- One pass of the loop of `init`: the next record is checked, and either the loop stops with
a panic, the map left as it is, or the record is written under its composite key. A stopped or
finished loop stays as it is. -/
def initStep (s : LoopState) : LoopState :=
  match s.panic with
  | some _ => s
  | none =>
    match s.remaining with
    | [] => s
    | model :: rest =>
      match checkModel model with
      | some msg =>
        { remaining := model :: rest, index := s.index,
          panic := some { dumped := model, message := msg } }
      | none =>
        { remaining := rest,
          index := mapSet s.index (compositeKey model.Provider model.ModelId) model,
          panic := none }

/-- The state of the loop of `init` on a catalog after `n` passes, from the empty map. -/
def initState (models : List AvailableModel) (n : Nat) : LoopState :=
  Nat.iterate initStep n { remaining := models, index := [], panic := none }

/-- The ten required fields in the order of the specification (description, provider, model
id, default max convo tokens, max tokens, max output tokens, reserved output tokens, api key
env var, base url, preferred output format): for each, the test that it is missing and the
message that names it. -/
def requiredFields : List ((AvailableModel → Bool) × String) :=
  [(fun m => m.Description = "", "description is not set"),
    (fun m => m.Provider = "", "model provider is not set"),
    (fun m => m.ModelId = "", "model id is not set"),
    (fun m => m.DefaultMaxConvoTokens = 0, "default max convo tokens is not set"),
    (fun m => m.MaxTokens = 0, "max tokens is not set"),
    (fun m => m.MaxOutputTokens = 0, "max output tokens is not set"),
    (fun m => m.ReservedOutputTokens = 0, "reserved output tokens is not set"),
    (fun m => m.ApiKeyEnvVar = "", "api key env var is not set"),
    (fun m => m.BaseUrl = "", "base url is not set"),
    (fun m => m.PreferredModelOutputFormat = "", "preferred model output format is not set")]

/-- The message that names the first missing field of a record, in the order of
`requiredFields`; `none` when no required field is missing. -/
def firstMissingField (m : AvailableModel) : Option String :=
  (requiredFields.find? fun f => f.1 m).map fun f => f.2

/-- The record with its four integer fields replaced by the given values. -/
def withLimits (m : AvailableModel) (convo maxTokens maxOutput reserved : Int) :
    AvailableModel :=
  { m with
    DefaultMaxConvoTokens := convo, MaxTokens := maxTokens,
    MaxOutputTokens := maxOutput, ReservedOutputTokens := reserved }

/-- The last record of the list, in list order, whose composite key is `k`. -/
def lastWithKey (k : String) : List AvailableModel → Option AvailableModel
  | [] => none
  | model :: rest =>
    match lastWithKey k rest with
    | some x => some x
    | none => if compositeKey model.Provider model.ModelId = k then some model else none

/-- A record with all ten required fields non-zero and non-empty, with negative token
limits. -/
def negativeLimits : AvailableModel :=
  { Description := "negative limits", DefaultMaxConvoTokens := -500,
    Provider := "custom", ModelName := "n", ModelId := "custom/n",
    MaxTokens := -1000, MaxOutputTokens := -200, ReservedOutputTokens := -100,
    ApiKeyEnvVar := "CUSTOM_API_KEY", BaseUrl := "https://custom.example.com/v1",
    PreferredModelOutputFormat := "xml" }

/-- A record that lacks its provider and its base URL. -/
def missingTwo : AvailableModel :=
  { Description := "no provider, no base url", DefaultMaxConvoTokens := 700,
    ModelName := "m-c", ModelId := "custom/c",
    MaxTokens := 2000, MaxOutputTokens := 400, ReservedOutputTokens := 300,
    ApiKeyEnvVar := "CUSTOM_API_KEY", PreferredModelOutputFormat := "xml" }

/-- A record that lacks only its description. -/
def noDescription : AvailableModel :=
  { Description := "", DefaultMaxConvoTokens := 700,
    Provider := "custom", ModelName := "m-d", ModelId := "custom/d",
    MaxTokens := 2000, MaxOutputTokens := 400, ReservedOutputTokens := 300,
    ApiKeyEnvVar := "CUSTOM_API_KEY", BaseUrl := "https://custom.example.com/v1",
    PreferredModelOutputFormat := "xml" }

/-- The record `OpenAI o3-mini-high` of the catalog, at the constants `sampleConsts`. -/
def sampleO3MiniHigh : AvailableModel :=
  { Description := "OpenAI o3-mini-high", DefaultMaxConvoTokens := 10000,
    Provider := "openai", ModelName := "o3-mini", ModelId := "openai/o3-mini-high",
    MaxTokens := 200000, MaxOutputTokens := 100000, ReservedOutputTokens := 30000,
    ApiKeyEnvVar := "OPENAI_API_KEY", ModelCompatibility := { HasImageSupport := true },
    BaseUrl := "https://api.openai.com/v1", PreferredModelOutputFormat := "tool-call-json",
    RoleParamsDisabled := true, ReasoningEffortEnabled := true, ReasoningEffort := "high" }

/-- Every entry of the map is a complete record of the catalog under its own composite key,
and the records still to visit are the end of the catalog. -/
def LoopInv (models : List AvailableModel) (s : LoopState) : Prop :=
  (∃ pre, models = pre ++ s.remaining) ∧
    ∀ e ∈ s.index, e.1 = compositeKey e.2.Provider e.2.ModelId ∧ e.2 ∈ models ∧ Complete e.2

/-! ## Go strings and the library functions called by `ui.go`

A Go string is a sequence of bytes. The functions of the Go standard library that `ui.go`
calls (`strings.Replace`, `json.Marshal`, `base64.URLEncoding.EncodeToString`) work on the
bytes, and are embedded here from their Go definitions. Shifts, masks and the bitwise or of
disjoint bit fields are written with `/`, `%`, `*` and `+`. -/

/-- A byte of a Go string. -/
abbrev Byte := Fin 256

/-- The Go type `string`: a sequence of bytes, not necessarily valid UTF-8. -/
abbrev GoString := List Byte

/-- The bytes of a string literal of the source. Only used with ASCII literals, where each
character is one byte. -/
def lit (s : String) : GoString :=
  s.toList.map fun ch => Fin.ofNat ch.toNat

/-- Go `strings.HasPrefix(s, sub)`. -/
def startsWith (sub : GoString) (s : GoString) : Bool :=
  sub.isPrefixOf s

/-- The scan of `strings.Index`: the position of the first place at or after position `i`
where `substr` starts, `-1` when there is none. The list is the part of the string from
position `i` on. -/
def indexFrom (substr : GoString) : GoString → Nat → Int
  | [], i => if startsWith substr [] then (i : Int) else -1
  | b :: rest, i =>
    if startsWith substr (b :: rest) then (i : Int) else indexFrom substr rest (i + 1)

/-- Go `strings.Index(s, substr)`: the index of the first instance of `substr` in `s`, or `-1`
if `substr` is not present in `s`. -/
def Index (s substr : GoString) : Int :=
  indexFrom substr s 0

/-- The Go slice expression `s[lo:hi]`. -/
def slice (s : GoString) (lo hi : Nat) : GoString :=
  (s.drop lo).take (hi - lo)

/-- The entry of the table `first` of `unicode/utf8` for a leading byte from `0xC2` to `0xF4`:
the width `sz` of the encoding and the range `lo`..`hi` accepted for the second byte. -/
def acceptInfo (s0 : Byte) : Nat × Nat × Nat :=
  (if s0.val < 0xE0 then 2 else if s0.val < 0xF0 then 3 else 4,
    if s0.val = 0xE0 then 0xA0 else if s0.val = 0xF0 then 0x90 else 0x80,
    if s0.val = 0xED then 0x9F else if s0.val = 0xF4 then 0x8F else 0xBF)

/-- The part of `utf8.DecodeRuneInString` that follows the look-up of the leading byte `s0`:
the checks of the length and of the continuation bytes in `rest`, and the rune and width
returned. Every failed check gives `(RuneError, 1)`. -/
def decodeMulti (sz lo hi : Nat) (s0 : Byte) (rest : GoString) : Nat × Nat :=
  if rest.length + 1 < sz then (0xFFFD, 1)
  else
    match rest with
    | [] => (0xFFFD, 1)
    | s1 :: rest1 =>
      if s1.val < lo ∨ hi < s1.val then (0xFFFD, 1)
      else if sz ≤ 2 then ((s0.val % 0x20) * 0x40 + s1.val % 0x40, 2)
      else
        match rest1 with
        | [] => (0xFFFD, 1)
        | s2 :: rest2 =>
          if s2.val < 0x80 ∨ 0xBF < s2.val then (0xFFFD, 1)
          else if sz ≤ 3 then
            ((s0.val % 0x10) * 0x1000 + (s1.val % 0x40) * 0x40 + s2.val % 0x40, 3)
          else
            match rest2 with
            | [] => (0xFFFD, 1)
            | s3 :: _ =>
              if s3.val < 0x80 ∨ 0xBF < s3.val then (0xFFFD, 1)
              else
                ((s0.val % 0x08) * 0x40000 + (s1.val % 0x40) * 0x1000 +
                  (s2.val % 0x40) * 0x40 + s3.val % 0x40, 4)

/-- Go `utf8.DecodeRuneInString(s)`: the first rune of `s` and its width in bytes. An empty
string gives `(RuneError, 0)`, an encoding that is not valid UTF-8 gives `(RuneError, 1)`,
where `RuneError = 0xFFFD`. An ASCII byte is its own rune; the bytes `0x80`..`0xC1` and
`0xF5`..`0xFF` cannot start an encoding. -/
def DecodeRuneInString : GoString → Nat × Nat
  | [] => (0xFFFD, 0)
  | s0 :: rest =>
    if s0.val < 0x80 then (s0.val, 1)
    else if s0.val < 0xC2 ∨ 0xF4 < s0.val then (0xFFFD, 1)
    else decodeMulti (acceptInfo s0).1 (acceptInfo s0).2.1 (acceptInfo s0).2.2 s0 rest

/-- The loop of `utf8.RuneCountInString`, with one unit of fuel per byte of the string. -/
def runeCountLoop : Nat → GoString → Nat → Nat
  | 0, _, n => n
  | _ + 1, [], n => n
  | fuel + 1, b :: rest, n =>
    runeCountLoop fuel ((b :: rest).drop (DecodeRuneInString (b :: rest)).2) (n + 1)

/-- Go `utf8.RuneCountInString(s)`: the number of runes in `s`; an invalid byte counts as one
rune of width 1. -/
def RuneCountInString (s : GoString) : Nat :=
  runeCountLoop s.length s 0

/-- The loop `for { i := Index(s, substr); if i == -1 { return n }; n++;
s = s[i+len(substr):] }` of `strings.Count`, with fuel. -/
def countLoop (substr : GoString) : Nat → GoString → Int → Int
  | 0, _, n => n
  | fuel + 1, s, n =>
    let i := Index s substr
    if i = -1 then n else countLoop substr fuel (s.drop (i.toNat + substr.length)) (n + 1)

/-- Go `strings.Count(s, substr)`: the number of non-overlapping instances of `substr` in `s`;
for an empty `substr`, one more than the number of runes of `s`. The Go function counts a
one-byte `substr` with `bytealg.CountString`, which gives the count of the loop. Every pass of
the loop removes at least one byte, so `len(s) + 1` passes are enough. -/
def Count (s substr : GoString) : Int :=
  if substr.length = 0 then (RuneCountInString s : Int) + 1
  else countLoop substr (s.length + 1) s 0

/-- The loop `for i := 0; i < n; i++` of `strings.Replace`: `k` passes remain, `i` is the loop
counter, `start` the position reached in `s` and `b` the contents of the builder. After the
last pass the rest of `s` is written. -/
def replaceLoop (s old new : GoString) : Nat → Nat → Nat → GoString → GoString
  | 0, _, start, b => b ++ s.drop start
  | k + 1, i, start, b =>
    let j : Nat :=
      if old.length = 0 then
        if i > 0 then start + (DecodeRuneInString (s.drop start)).2 else start
      else start + (Index (s.drop start) old).toNat
    replaceLoop s old new k (i + 1) (j + old.length) (b ++ slice s start j ++ new)

/-- Go `strings.Replace(s, old, new, n)`: a copy of `s` with the first `n` non-overlapping
instances of `old` replaced by `new`; all of them when `n < 0`. -/
def Replace (s old new : GoString) (n : Int) : GoString :=
  if old = new ∨ n = 0 then s
  else
    let m := Count s old
    if m = 0 then s
    else
      let n := if n < 0 ∨ m < n then m else n
      replaceLoop s old new n.toNat 0 0 []

/-- The derivation of the app host in `OpenAuthenticatedURL` and
`OpenUnauthenticatedCloudURL`: `strings.Replace(apiHost, "api.", "app.", 1)`. -/
def appHost (apiHost : GoString) : GoString :=
  Replace apiHost (lit "api.") (lit "app.") 1

/-! ### `json.Marshal` of a sign-in token -/

/-- The digit `hex[i]` of the table `"0123456789abcdef"` of `encoding/json`. -/
def hexDigit (i : Nat) : Byte :=
  if i < 10 then Fin.ofNat (0x30 + i) else Fin.ofNat (0x61 + (i - 10))

/-- The table `htmlSafeSet` of `encoding/json`: the ASCII bytes that are written as they are
inside a JSON string, namely those from the space on other than the double quote, the
backslash and the three characters `<`, `>`, `&`. -/
def htmlSafe (b : Byte) : Bool :=
  decide (0x20 ≤ b.val ∧ b.val < 0x80 ∧ b.val ≠ 0x22 ∧ b.val ≠ 0x5C ∧ b.val ≠ 0x3C ∧
    b.val ≠ 0x3E ∧ b.val ≠ 0x26)

/-- The `switch b` of `appendString` of `encoding/json` for an ASCII byte that is not in
`htmlSafeSet`: the escape sequence written for it. -/
def escapeByte (b : Byte) : GoString :=
  if b.val = 0x5C ∨ b.val = 0x22 then [0x5C, b]
  else if b.val = 0x08 then [0x5C, 0x62]
  else if b.val = 0x0C then [0x5C, 0x66]
  else if b.val = 0x0A then [0x5C, 0x6E]
  else if b.val = 0x0D then [0x5C, 0x72]
  else if b.val = 0x09 then [0x5C, 0x74]
  else [0x5C, 0x75, 0x30, 0x30, hexDigit (b.val / 16), hexDigit (b.val % 16)]

/-- The loop of `appendString` of `encoding/json` (with `escapeHTML` set, as `json.Marshal`
does) over the bytes that remain: what is written between the two quotes. A safe ASCII byte
is copied, another ASCII byte is escaped, a byte that does not start a valid UTF-8 encoding is
replaced by the six characters of the escape of U+FFFD, the runes U+2028 and U+2029 are
escaped, and the bytes of every other rune are copied. One unit of fuel per byte of the
string. -/
def appendStringLoop : Nat → GoString → GoString
  | 0, _ => []
  | _ + 1, [] => []
  | fuel + 1, b :: rest =>
    if b.val < 0x80 then
      (if htmlSafe b then [b] else escapeByte b) ++ appendStringLoop fuel rest
    else
      let c := (DecodeRuneInString (slice (b :: rest) 0 4)).1
      let size := (DecodeRuneInString (slice (b :: rest) 0 4)).2
      if c = 0xFFFD ∧ size = 1 then
        lit "\\ufffd" ++ appendStringLoop fuel rest
      else if c = 0x2028 ∨ c = 0x2029 then
        [0x5C, 0x75, 0x32, 0x30, 0x32, hexDigit (c % 16)] ++
          appendStringLoop fuel ((b :: rest).drop size)
      else
        slice (b :: rest) 0 size ++ appendStringLoop fuel ((b :: rest).drop size)

/-- The function `appendString` of `encoding/json` from an empty destination: the JSON string
literal for the Go string `src`. -/
def appendString (src : GoString) : GoString :=
  [0x22] ++ appendStringLoop src.length src ++ [0x22]

/-- Modelled from the spec: the declaration of the type `shared.UiSignInToken` is not among
the source files. `ui.go` sets its fields `Pin` and `RedirectTo`, and the spec gives its JSON
form, an object with the members `pin` and `redirectTo`. -/
structure UiSignInToken where
  Pin : GoString
  RedirectTo : GoString
  deriving DecidableEq, Repr

/-- Go `json.Marshal(token)` for a `UiSignInToken`: the object with the two members in the
order of the fields. The encoding of a struct of strings has no error case. -/
def Marshal (token : UiSignInToken) : GoString :=
  lit "\x7b\"pin\":" ++ appendString token.Pin ++ lit ",\"redirectTo\":" ++
    appendString token.RedirectTo ++ lit "\x7d"

/-! ### `base64.URLEncoding` -/

/-- The alphabet `encodeURL` of `encoding/base64`:
`ABCDEFGHIJKLMNOPQRSTUVWXYZabcdefghijklmnopqrstuvwxyz0123456789-_`. -/
def encodeURL (i : Nat) : Byte :=
  if i < 26 then Fin.ofNat (0x41 + i)
  else if i < 52 then Fin.ofNat (0x61 + (i - 26))
  else if i < 62 then Fin.ofNat (0x30 + (i - 52))
  else if i = 62 then 0x2D
  else 0x5F

/-- The padding character `=` of `base64.URLEncoding` (`StdPadding`). -/
def padChar : Byte := 0x3D

/-- Go `base64.URLEncoding.EncodeToString(src)`: every three bytes give four characters of the
alphabet; a last group of one or two bytes gives two or three characters and is padded with
`=` to four. -/
def EncodeToString : GoString → GoString
  | [] => []
  | [b0] =>
    let val := b0.val * 0x10000
    [encodeURL (val / 0x40000 % 0x40), encodeURL (val / 0x1000 % 0x40), padChar, padChar]
  | [b0, b1] =>
    let val := b0.val * 0x10000 + b1.val * 0x100
    [encodeURL (val / 0x40000 % 0x40), encodeURL (val / 0x1000 % 0x40),
      encodeURL (val / 0x40 % 0x40), padChar]
  | b0 :: b1 :: b2 :: rest =>
    let val := b0.val * 0x10000 + b1.val * 0x100 + b2.val
    [encodeURL (val / 0x40000 % 0x40), encodeURL (val / 0x1000 % 0x40),
      encodeURL (val / 0x40 % 0x40), encodeURL (val % 0x40)] ++ EncodeToString rest

/-! ### `ui.go` -/

/-- The token that `OpenAuthenticatedURL` builds from the sign-in code and the path:
`base64.URLEncoding.EncodeToString(json.Marshal(UiSignInToken{Pin, RedirectTo}))`. -/
def encodedToken (signInCode path : GoString) : GoString :=
  EncodeToString (Marshal { Pin := signInCode, RedirectTo := path })

/-- The function `OpenAuthenticatedURL`, as the URL it prints and hands to the browser. The
call `api.Client.CreateSignInCode()` is an input: it yields the sign-in code or an error, and
on an error the function ends in `log.Fatalf`. `apiHost` is the value of `api.GetApiHost()`.
The message `msg` is only printed. -/
def OpenAuthenticatedURL (createSignInCode : Except GoString GoString) (apiHost : GoString)
    (_msg path : GoString) : Except GoString GoString :=
  match createSignInCode with
  | .error apiErr => .error (lit "Error creating sign in code: " ++ apiErr)
  | .ok signInCode =>
    .ok (appHost apiHost ++ lit "/auth/" ++ encodedToken signInCode path)

/-- The function `OpenUnauthenticatedCloudURL`, as the URL it prints and hands to the browser;
`cloudApiHost` is the constant `api.CloudApiHost`. -/
def OpenUnauthenticatedCloudURL (cloudApiHost : GoString) (_msg path : GoString) : GoString :=
  appHost cloudApiHost ++ path

/-! ### Reading a token back

`ui.go` only writes tokens. The reading side named by the spec (URL-safe base64 decoding
followed by JSON parsing) is given here, on bytes, so that the round trip can be stated. -/

/-- Go `utf8.ValidString`, as the loop over `DecodeRuneInString`: no position of the string
decodes to `(RuneError, 1)`. One unit of fuel per byte. -/
def validLoop : Nat → GoString → Bool
  | 0, s => s.isEmpty
  | _ + 1, [] => true
  | fuel + 1, b :: rest =>
    if (DecodeRuneInString (b :: rest)).1 = 0xFFFD ∧ (DecodeRuneInString (b :: rest)).2 = 1 then
      false
    else validLoop fuel ((b :: rest).drop (DecodeRuneInString (b :: rest)).2)

/-- Go `utf8.ValidString(s)`: `s` consists entirely of valid UTF-8 encoded runes. -/
def ValidString (s : GoString) : Bool :=
  validLoop s.length s

/-- Modelled from the spec: the inverse of the alphabet `encodeURL`, the value of a character
of the URL-safe base64 alphabet; `none` for any other byte, the padding `=` included. -/
def decodeURLChar (b : Byte) : Option Nat :=
  if 0x41 ≤ b.val ∧ b.val ≤ 0x5A then some (b.val - 0x41)
  else if 0x61 ≤ b.val ∧ b.val ≤ 0x7A then some (b.val - 0x61 + 26)
  else if 0x30 ≤ b.val ∧ b.val ≤ 0x39 then some (b.val - 0x30 + 52)
  else if b.val = 0x2D then some 62
  else if b.val = 0x5F then some 63
  else none

/-- Modelled from the spec: URL-safe base64 decoding with padding (the reading side of
`base64.URLEncoding`). Four characters give three bytes; the last group may end in one or two
padding characters and then gives two bytes or one. Any other input is rejected. -/
def DecodeString : GoString → Option GoString
  | [] => some []
  | c0 :: c1 :: c2 :: c3 :: rest =>
    match decodeURLChar c0, decodeURLChar c1 with
    | some v0, some v1 =>
      if rest = [] ∧ c2 = padChar ∧ c3 = padChar then
        some [Fin.ofNat (v0 * 4 + v1 / 16)]
      else
        match decodeURLChar c2 with
        | none => none
        | some v2 =>
          if rest = [] ∧ c3 = padChar then
            some [Fin.ofNat (v0 * 4 + v1 / 16), Fin.ofNat (v1 % 16 * 16 + v2 / 4)]
          else
            match decodeURLChar c3 with
            | none => none
            | some v3 =>
              (DecodeString rest).map fun tl =>
                Fin.ofNat (v0 * 4 + v1 / 16) :: Fin.ofNat (v1 % 16 * 16 + v2 / 4) ::
                  Fin.ofNat (v2 % 4 * 64 + v3) :: tl
    | _, _ => none
  | _ => none

/-- The value of a hexadecimal digit, in either case. -/
def hexValue (b : Byte) : Option Nat :=
  if 0x30 ≤ b.val ∧ b.val ≤ 0x39 then some (b.val - 0x30)
  else if 0x61 ≤ b.val ∧ b.val ≤ 0x66 then some (b.val - 0x61 + 10)
  else if 0x41 ≤ b.val ∧ b.val ≤ 0x46 then some (b.val - 0x41 + 10)
  else none

/-- The number written by the four hexadecimal digits of a `\u` escape. -/
def hex4 (h1 h2 h3 h4 : Byte) : Option Nat :=
  match hexValue h1, hexValue h2, hexValue h3, hexValue h4 with
  | some a, some b, some c, some d => some (a * 0x1000 + b * 0x100 + c * 0x10 + d)
  | _, _, _, _ => none

/-- Go `utf8.AppendRune` from an empty slice: the UTF-8 encoding of the rune `r`, and that of
U+FFFD for a surrogate or a value beyond U+10FFFF. -/
def EncodeRune (r : Nat) : GoString :=
  if r < 0x80 then [Fin.ofNat r]
  else if r < 0x800 then [Fin.ofNat (0xC0 + r / 0x40), Fin.ofNat (0x80 + r % 0x40)]
  else if (0xD800 ≤ r ∧ r ≤ 0xDFFF) ∨ 0x10FFFF < r then [0xEF, 0xBF, 0xBD]
  else if r < 0x10000 then
    [Fin.ofNat (0xE0 + r / 0x1000), Fin.ofNat (0x80 + r / 0x40 % 0x40),
      Fin.ofNat (0x80 + r % 0x40)]
  else
    [Fin.ofNat (0xF0 + r / 0x40000), Fin.ofNat (0x80 + r / 0x1000 % 0x40),
      Fin.ofNat (0x80 + r / 0x40 % 0x40), Fin.ofNat (0x80 + r % 0x40)]

/-- The byte denoted by the character after a backslash in a JSON string, for the two-character
escapes `\"`, `\\`, `\/`, `\b`, `\f`, `\n`, `\r`, `\t`. -/
def unescapeChar (ch : Byte) : Option Byte :=
  if ch.val = 0x22 then some 0x22
  else if ch.val = 0x5C then some 0x5C
  else if ch.val = 0x2F then some 0x2F
  else if ch.val = 0x62 then some 0x08
  else if ch.val = 0x66 then some 0x0C
  else if ch.val = 0x6E then some 0x0A
  else if ch.val = 0x72 then some 0x0D
  else if ch.val = 0x74 then some 0x09
  else none

/-- The rune denoted by a surrogate pair of `\u` escapes: `r` is the value of a first escape
and `s` the input after it. When `r` is a high surrogate and `s` starts with the escape of a
low surrogate, the result is the rune that the two combine to. -/
def surrogatePair (r : Nat) (s : GoString) : Option Nat :=
  match s with
  | e :: u :: l1 :: l2 :: l3 :: l4 :: _ =>
    match hex4 l1 l2 l3 l4 with
    | some r2 =>
      if 0xD800 ≤ r ∧ r < 0xDC00 ∧ e.val = 0x5C ∧ u.val = 0x75 ∧ 0xDC00 ≤ r2 ∧ r2 < 0xE000 then
        some (0x10000 + (r - 0xD800) * 0x400 + (r2 - 0xDC00))
      else none
    | none => none
  | _ => none

/-- The reading of a `\u` escape from just after `\u`: the bytes it denotes and the input
left. The escape denotes the UTF-8 encoding of its rune; a pair of surrogate escapes that of
the rune they combine to, and a lone surrogate that of U+FFFD. -/
def unquoteU (s : GoString) : Option (GoString × GoString) :=
  match s with
  | h1 :: h2 :: h3 :: h4 :: rest2 =>
    match hex4 h1 h2 h3 h4 with
    | none => none
    | some r =>
      match surrogatePair r rest2 with
      | some combined => some (EncodeRune combined, rest2.drop 6)
      | none => some (EncodeRune r, rest2)
  | _ => none

/-- The reading of an escape from just after the backslash: the bytes it denotes and the
input left; `none` for an unknown or incomplete escape. -/
def unquoteEscape (s : GoString) : Option (GoString × GoString) :=
  match s with
  | [] => none
  | ch :: rest1 =>
    if ch.val = 0x75 then unquoteU rest1
    else
      match unescapeChar ch with
      | none => none
      | some x => some ([x], rest1)

/-- The loop that reads a JSON string from just after its opening quote, one byte or escape
per pass, up to the closing quote. A raw control byte, an unknown escape and a missing closing
quote are rejected. One unit of fuel per pass. -/
def unquoteLoop : Nat → GoString → Option (GoString × GoString)
  | 0, _ => none
  | _ + 1, [] => none
  | fuel + 1, b :: rest =>
    if b.val = 0x22 then some ([], rest)
    else if b.val = 0x5C then
      match unquoteEscape rest with
      | none => none
      | some (out, rest1) => (unquoteLoop fuel rest1).map fun p => (out ++ p.1, p.2)
    else if b.val < 0x20 then none
    else (unquoteLoop fuel rest).map fun p => (b :: p.1, p.2)

/-- Modelled from the spec: the reading of a JSON string (RFC 8259) from just after its opening
quote: the bytes it denotes and the input left after its closing quote. Every pass of the loop
takes at least one byte, so one unit of fuel per byte is enough. -/
def unquoteBody (s : GoString) : Option (GoString × GoString) :=
  unquoteLoop s.length s

/-- The input without its leading JSON whitespace (space, tab, line feed, carriage return). -/
def skipSpace : GoString → GoString
  | [] => []
  | b :: rest =>
    if b.val = 0x20 ∨ b.val = 0x09 ∨ b.val = 0x0A ∨ b.val = 0x0D then skipSpace rest
    else b :: rest

/-- A JSON string, after optional whitespace: its bytes and the input left after it. -/
def parseString (s : GoString) : Option (GoString × GoString) :=
  match skipSpace s with
  | [] => none
  | b :: rest => if b.val = 0x22 then unquoteBody rest else none

/-- The members of a JSON object whose values are strings, read from just after the opening
brace or a comma up to the closing brace, after which only whitespace may follow. One unit of
fuel per member. -/
def parseMembers : Nat → GoString → Option (List (GoString × GoString))
  | 0, _ => none
  | fuel + 1, s =>
    match parseString s with
    | none => none
    | some (key, s1) =>
      match skipSpace s1 with
      | [] => none
      | colon :: s2 =>
        if colon.val = 0x3A then
          match parseString s2 with
          | none => none
          | some (value, s3) =>
            match skipSpace s3 with
            | [] => none
            | d :: s4 =>
              if d.val = 0x2C then (parseMembers fuel s4).map fun ms => (key, value) :: ms
              else if d.val = 0x7D then
                if skipSpace s4 = [] then some [(key, value)] else none
              else none
        else none

/-- Modelled from the spec: JSON parsing of a text that is an object whose member values are
strings, as the list of its members in order. Any other text is rejected. Every member takes
at least one byte, so one unit of fuel per byte is enough. -/
def parseObject (s : GoString) : Option (List (GoString × GoString)) :=
  match skipSpace s with
  | [] => none
  | b :: rest =>
    if b.val = 0x7B then
      match skipSpace rest with
      | [] => none
      | d :: tl =>
        if d.val = 0x7D then (if skipSpace tl = [] then some [] else none)
        else parseMembers s.length rest
    else none

/-- The value of the member `name`; the last one when the name is repeated. -/
def member (name : GoString) (ms : List (GoString × GoString)) : Option GoString :=
  ms.reverse.lookup name

/-- Modelled from the spec: the decoding of a token, URL-safe base64 decoding followed by JSON
parsing, to the sign-in code (member `pin`) and the path (member `redirectTo`). -/
def DecodeToken (encoded : GoString) : Option UiSignInToken :=
  match DecodeString encoded with
  | none => none
  | some text =>
    match parseObject text with
    | none => none
    | some ms =>
      match member (lit "pin") ms, member (lit "redirectTo") ms with
      | some pin, some redirectTo => some { Pin := pin, RedirectTo := redirectTo }
      | _, _ => none

/-! ### Auxiliary definitions for the proofs on `ui.go` -/

/-- The first occurrence of `sub` in `s` is after the part `pre`. -/
def FirstAt (sub s pre post : GoString) : Prop :=
  s = pre ++ sub ++ post ∧ ∀ pre' post', s = pre' ++ sub ++ post' → pre.length ≤ pre'.length

/-- The byte is a character of the URL-safe base64 alphabet (`A`-`Z`, `a`-`z`, `0`-`9`, `-`,
`_`) or the padding character `=`. -/
def urlSafe (b : Byte) : Prop :=
  (0x41 ≤ b.val ∧ b.val ≤ 0x5A) ∨ (0x61 ≤ b.val ∧ b.val ≤ 0x7A) ∨
    (0x30 ≤ b.val ∧ b.val ≤ 0x39) ∨ b.val = 0x2D ∨ b.val = 0x5F ∨ b.val = 0x3D

instance (b : Byte) : Decidable (urlSafe b) := by
  unfold urlSafe; infer_instance

/-- What `decodeMulti` returns, case by case. -/
def MultiShape (sz : Nat) (s0 : Byte) (rest : GoString) (r : Nat × Nat) : Prop :=
  r = (0xFFFD, 1) ∨
    (∃ s1 tl, rest = s1 :: tl ∧ sz = 2 ∧ 0x80 ≤ s1.val ∧ s1.val ≤ 0xBF ∧
      r = ((s0.val % 0x20) * 0x40 + s1.val % 0x40, 2)) ∨
    (∃ s1 s2 tl, rest = s1 :: s2 :: tl ∧ sz = 3 ∧
      0x80 ≤ s1.val ∧ s1.val ≤ 0xBF ∧ 0x80 ≤ s2.val ∧ s2.val ≤ 0xBF ∧
      r = ((s0.val % 0x10) * 0x1000 + (s1.val % 0x40) * 0x40 + s2.val % 0x40, 3)) ∨
    (∃ s1 s2 s3 tl, rest = s1 :: s2 :: s3 :: tl ∧ sz = 4 ∧ 0x80 ≤ s1.val ∧ s1.val ≤ 0xBF ∧
      0x80 ≤ s2.val ∧ s2.val ≤ 0xBF ∧ 0x80 ≤ s3.val ∧ s3.val ≤ 0xBF ∧
      r = ((s0.val % 0x08) * 0x40000 + (s1.val % 0x40) * 0x1000 +
        (s2.val % 0x40) * 0x40 + s3.val % 0x40, 4))

/-- One pass of the loop of `appendString` on a valid string, and how it is read back: the
pass takes the bytes `l` and writes `out`, and reading `out` gives `l` again. -/
def StepOk (f : Nat) (s l tl out : GoString) (k : Nat) : Prop :=
  s = l ++ tl ∧ 1 ≤ l.length ∧ validLoop f tl = true ∧
    appendStringLoop (f + 1) s = out ++ appendStringLoop f tl ∧ 1 ≤ k ∧ k ≤ out.length ∧
    ∀ fuel X y tail, unquoteLoop fuel X = some (y, tail) →
      unquoteLoop (fuel + k) (out ++ X) = some (l ++ y, tail)

/-! ## Lemmas on the index and on `init` -/

theorem mapGet_mapSet_ne (m : ModelMap) (k k' : String) (v : AvailableModel) (h : k ≠ k') :
    mapGet (mapSet m k v) k' = mapGet m k' := by
  induction m with
  | nil => simp [mapSet, mapGet, h]
  | cons e rest ih =>
    obtain ⟨k₀, v₀⟩ := e
    by_cases h₀ : k₀ = k
    · subst h₀; simp [mapSet, mapGet, h]
    · by_cases h₁ : k₀ = k'
      · subst h₁; simp [mapSet, mapGet, h₀]
      · simp [mapSet, mapGet, h₀, h₁, ih]

theorem checkModel_eq_none_iff (model : AvailableModel) :
    checkModel model = none ↔ Complete model := by
  unfold checkModel Complete
  by_cases h1 : model.Description = ""
  · simp [h1]
  by_cases h2 : model.Provider = ""
  · simp [h1, h2]
  by_cases h3 : model.ModelId = ""
  · simp [h1, h2, h3]
  by_cases h4 : model.DefaultMaxConvoTokens = 0
  · simp [h1, h2, h3, h4]
  by_cases h5 : model.MaxTokens = 0
  · simp [h1, h2, h3, h4, h5]
  by_cases h6 : model.MaxOutputTokens = 0
  · simp [h1, h2, h3, h4, h5, h6]
  by_cases h7 : model.ReservedOutputTokens = 0
  · simp [h1, h2, h3, h4, h5, h6, h7]
  by_cases h8 : model.ApiKeyEnvVar = ""
  · simp [h1, h2, h3, h4, h5, h6, h7, h8]
  by_cases h9 : model.BaseUrl = ""
  · simp [h1, h2, h3, h4, h5, h6, h7, h8, h9]
  by_cases h10 : model.PreferredModelOutputFormat = ""
  · simp [h1, h2, h3, h4, h5, h6, h7, h8, h9, h10]
  simp [h1, h2, h3, h4, h5, h6, h7, h8, h9, h10]

theorem mapGet_mapSet_self (m : ModelMap) (k : String) (v : AvailableModel) :
    mapGet (mapSet m k v) k = some v := by
  induction m with
  | nil => simp [mapSet, mapGet]
  | cons e rest ih =>
    obtain ⟨k', v'⟩ := e
    by_cases h : k' = k
    · simp [mapSet, mapGet, h]
    · simp [mapSet, mapGet, h, ih]

theorem initLoop_panic_eq_none_iff (models : List AvailableModel) (idx : ModelMap) :
    (initLoop models idx).panic = none ↔ ∀ model ∈ models, Complete model := by
  induction models generalizing idx with
  | nil => simp [initLoop]
  | cons model rest ih =>
    cases h : checkModel model with
    | none =>
      have hc := (checkModel_eq_none_iff model).1 h
      simp [initLoop, h, ih, hc]
    | some msg =>
      have hc : ¬ Complete model := fun hc => by
        rw [(checkModel_eq_none_iff model).2 hc] at h; cases h
      simp [initLoop, h, hc]

theorem mapSet_fresh (m : ModelMap) (k : String) (v : AvailableModel)
    (h : k ∉ m.map Prod.fst) : mapSet m k v = m ++ [(k, v)] := by
  induction m with
  | nil => rfl
  | cons e rest ih =>
    obtain ⟨k', v'⟩ := e
    simp only [List.map_cons, List.mem_cons, not_or] at h
    have h' : ¬ k' = k := fun e => h.1 e.symm
    simp [mapSet, h', ih h.2]

theorem initLoop_of_nodup (models : List AvailableModel) (idx : ModelMap)
    (hc : ∀ model ∈ models, Complete model)
    (hk : (idx.map Prod.fst ++ models.map fun r => compositeKey r.Provider r.ModelId).Nodup) :
    initLoop models idx = { index := idx ++ models.map entryOf, panic := none } := by
  induction models generalizing idx with
  | nil => simp [initLoop]
  | cons model rest ih =>
    have h1 : checkModel model = none :=
      (checkModel_eq_none_iff model).2 (hc model (List.mem_cons_self _ _))
    have hfresh : compositeKey model.Provider model.ModelId ∉ idx.map Prod.fst := by
      intro hmem
      rw [List.nodup_append] at hk
      exact hk.2.2 hmem (by simp)
    simp only [initLoop, h1]
    rw [mapSet_fresh _ _ _ hfresh, ih]
    · simp [entryOf]
    · intro m hm; exact hc m (List.mem_cons_of_mem _ hm)
    · simpa [List.map_append, List.append_assoc] using hk

theorem mapGet_of_nodup (l : List AvailableModel) (r : AvailableModel) (hr : r ∈ l)
    (hk : (l.map fun r => compositeKey r.Provider r.ModelId).Nodup) :
    mapGet (l.map entryOf) (compositeKey r.Provider r.ModelId) = some r := by
  induction l with
  | nil => cases hr
  | cons a rest ih =>
    simp only [List.map_cons, List.nodup_cons] at hk
    rcases List.mem_cons.1 hr with rfl | hmem
    · simp [mapGet, entryOf]
    · have hne : compositeKey a.Provider a.ModelId ≠ compositeKey r.Provider r.ModelId := by
        intro e
        exact hk.1 (e ▸ List.mem_map_of_mem (fun r => compositeKey r.Provider r.ModelId) hmem)
      simp [List.map_cons, mapGet, entryOf, hne]
      exact ih hmem hk.2

theorem compositeKey_data (p m : String) :
    (compositeKey p m).data = p.data ++ '/' :: m.data := by
  simp [compositeKey, String.data_append]

theorem compositeKey_inj_right (p m₁ m₂ : String) :
    compositeKey p m₁ = compositeKey p m₂ ↔ m₁ = m₂ := by
  constructor
  · intro h
    have h' := congrArg String.data h
    simp only [compositeKey_data, List.append_cancel_left_eq, List.cons.injEq, true_and] at h'
    exact String.ext h'
  · rintro rfl; rfl

theorem endsInSlash_of_compositeKey_eq (p₁ p₂ m₁ m₂ : String) (hp : p₁ ≠ p₂)
    (h : compositeKey p₁ m₁ = compositeKey p₂ m₂) :
    endsInSlash m₁ m₂ = true ∨ endsInSlash m₂ m₁ = true := by
  have h' := congrArg String.data h
  simp only [compositeKey_data] at h'
  have hd : p₁.data ≠ p₂.data := fun e => hp (String.ext e)
  rcases List.append_eq_append_iff.1 h' with ⟨a, hb, ha⟩ | ⟨a, hb, ha⟩
  · left
    cases a with
    | nil => exact absurd (by simpa using hb.symm) hd
    | cons x a =>
      simp only [List.cons_append, List.cons.injEq] at ha
      simp only [endsInSlash, List.isSuffixOf_iff_suffix]
      exact ⟨a, ha.2.symm⟩
  · right
    cases a with
    | nil => exact absurd (by simpa using hb) hd
    | cons x a =>
      simp only [List.cons_append, List.cons.injEq] at ha
      simp only [endsInSlash, List.isSuffixOf_iff_suffix]
      exact ⟨a, ha.2.symm⟩


theorem openAIModels_keys (c : ModelConsts) :
    (openAIModels c).map (fun r => compositeKey r.Provider r.ModelId) =
      ["openai/o3-mini-high", "openai/o3-mini-medium", "openai/o3-mini-low", "openai/o1",
        "openai/gpt-4o", "openai/gpt-4o-mini"].map (compositeKey c.ModelProviderOpenAI) := rfl

theorem openRouterModels_keys (c : ModelConsts) :
    (openRouterModels c).map (fun r => compositeKey r.Provider r.ModelId) =
      ["anthropic/claude-3.7-sonnet", "anthropic/claude-3.5-sonnet",
        "anthropic/claude-3.5-haiku", "google/gemini-pro-1.5",
        "google/gemini-2.0-pro-exp-02-05:free", "google/gemini-2.0-flash-001",
        "deepseek/deepseek-chat", "deepseek/deepseek-r1-reasoning",
        "deepseek/deepseek-r1-no-reasoning", "perplexity/r1-1776",
        "perplexity/sonar-reasoning", "qwen/qwen-2.5-coder-32b-instruct",
        "openai/o3-mini-high", "openai/o3-mini-medium", "openai/o3-mini-low", "openai/o1",
        "openai/gpt-4o", "openai/gpt-4o-mini"].map (compositeKey c.ModelProviderOpenRouter) :=
  rfl

theorem nodup_map_compositeKey (p : String) (ids : List String) (h : ids.Nodup) :
    (ids.map (compositeKey p)).Nodup :=
  h.map fun _ _ e => (compositeKey_inj_right p _ _).1 e

set_option maxRecDepth 100000 in
theorem AvailableModels_keys_nodup (c : ModelConsts)
    (hp : c.ModelProviderOpenAI ≠ c.ModelProviderOpenRouter) :
    ((AvailableModels c).map fun r => compositeKey r.Provider r.ModelId).Nodup := by
  rw [AvailableModels, List.map_append, openAIModels_keys, openRouterModels_keys,
    List.nodup_append]
  refine ⟨nodup_map_compositeKey _ _ (by decide), nodup_map_compositeKey _ _ (by decide), ?_⟩
  intro k h₁ h₂
  obtain ⟨m₁, hm₁, rfl⟩ := List.mem_map.1 h₁
  obtain ⟨m₂, hm₂, e⟩ := List.mem_map.1 h₂
  have hall : ∀ m₁ ∈ ["openai/o3-mini-high", "openai/o3-mini-medium", "openai/o3-mini-low",
      "openai/o1", "openai/gpt-4o", "openai/gpt-4o-mini"],
      ∀ m₂ ∈ ["anthropic/claude-3.7-sonnet", "anthropic/claude-3.5-sonnet",
        "anthropic/claude-3.5-haiku", "google/gemini-pro-1.5",
        "google/gemini-2.0-pro-exp-02-05:free", "google/gemini-2.0-flash-001",
        "deepseek/deepseek-chat", "deepseek/deepseek-r1-reasoning",
        "deepseek/deepseek-r1-no-reasoning", "perplexity/r1-1776",
        "perplexity/sonar-reasoning", "qwen/qwen-2.5-coder-32b-instruct",
        "openai/o3-mini-high", "openai/o3-mini-medium", "openai/o3-mini-low", "openai/o1",
        "openai/gpt-4o", "openai/gpt-4o-mini"],
      endsInSlash m₁ m₂ = false ∧ endsInSlash m₂ m₁ = false := by decide
  have := hall m₁ hm₁ m₂ hm₂
  rcases endsInSlash_of_compositeKey_eq _ _ _ _ hp e.symm with h | h
  · rw [this.1] at h; cases h
  · rw [this.2] at h; cases h

theorem AvailableModels_complete (c : ModelConsts) (hc : c.WellFormed) :
    ∀ r ∈ AvailableModels c, Complete r := by
  intro r hr
  obtain ⟨h1, h2, h3, h4, h5, h6, h7, h8, h9⟩ := hc
  simp only [AvailableModels, openAIModels, openRouterModels, List.mem_append, List.mem_cons,
    List.mem_singleton, List.not_mem_nil, or_false] at hr
  rcases hr with hr | hr
  · rcases hr with rfl | rfl | rfl | rfl | rfl | rfl <;>
      exact ⟨by simp, h1, by simp, by simp, by simp, by simp, by simp, h4, h5,
        by first | exact h8 | exact h9⟩
  · rcases hr with rfl | rfl | rfl | rfl | rfl | rfl | rfl | rfl | rfl | rfl | rfl | rfl | rfl |
      rfl | rfl | rfl | rfl | rfl <;>
      exact ⟨by simp, h2, by simp, by simp, by simp, by simp, by simp, h6, h7,
        by first | exact h8 | exact h9⟩

theorem keys_mapSet (m : ModelMap) (k : String) (v : AvailableModel) :
    (mapSet m k v).map Prod.fst =
      if k ∈ m.map Prod.fst then m.map Prod.fst else m.map Prod.fst ++ [k] := by
  induction m with
  | nil => simp [mapSet]
  | cons e rest ih =>
    obtain ⟨k', v'⟩ := e
    by_cases h : k' = k
    · subst h; simp [mapSet]
    · have h' : ¬ k = k' := fun e => h e.symm
      by_cases hm : k ∈ rest.map Prod.fst
      · simp only [mapSet, h, if_false, List.map_cons, ih, hm, if_true, List.mem_cons, or_true]
      · simp only [mapSet, h, if_false, List.map_cons, ih, hm, List.mem_cons, h', or_self,
          List.cons_append]

theorem keys_mapSet_nodup (m : ModelMap) (k : String) (v : AvailableModel)
    (h : (m.map Prod.fst).Nodup) : ((mapSet m k v).map Prod.fst).Nodup := by
  rw [keys_mapSet]
  split
  · exact h
  · rename_i hk
    rw [List.nodup_append]
    exact ⟨h, List.nodup_singleton k, by simpa using hk⟩

theorem initLoop_keys_nodup (models : List AvailableModel) (idx : ModelMap)
    (h : (idx.map Prod.fst).Nodup) : ((initLoop models idx).index.map Prod.fst).Nodup := by
  induction models generalizing idx with
  | nil => simpa [initLoop] using h
  | cons model rest ih =>
    cases hc : checkModel model with
    | none => simp only [initLoop, hc]; exact ih _ (keys_mapSet_nodup _ _ _ h)
    | some msg => simpa [initLoop, hc] using h

theorem initLoop_keys_subset (models : List AvailableModel) (idx : ModelMap) (k : String)
    (hk : k ∈ (initLoop models idx).index.map Prod.fst) :
    k ∈ idx.map Prod.fst ∨ k ∈ models.map fun r => compositeKey r.Provider r.ModelId := by
  induction models generalizing idx with
  | nil => left; simpa [initLoop] using hk
  | cons model rest ih =>
    cases hc : checkModel model with
    | none =>
      simp only [initLoop, hc] at hk
      rcases ih _ hk with h | h
      · rw [keys_mapSet] at h
        split at h
        · exact Or.inl h
        · rcases List.mem_append.1 h with h | h
          · exact Or.inl h
          · right; simp only [List.mem_singleton] at h; simp [h]
      · right; simp only [List.map_cons, List.mem_cons]; exact Or.inr h
    | some msg => left; simpa [initLoop, hc] using hk

theorem length_lt_of_not_nodup (l : List String) (h : ¬ l.Nodup) : l.dedup.length < l.length := by
  rcases Nat.lt_or_ge l.dedup.length l.length with h' | h'
  · exact h'
  · exact absurd (List.dedup_eq_self.1 ((List.dedup_sublist l).eq_of_length_le h')) h

theorem init_length_lt (models : List AvailableModel)
    (hd : ¬ (models.map fun r => compositeKey r.Provider r.ModelId).Nodup) :
    (init models).index.length < models.length := by
  have hn : ((init models).index.map Prod.fst).Nodup :=
    initLoop_keys_nodup models [] (by simp)
  have hs : ((init models).index.map Prod.fst).toFinset ⊆
      (models.map fun r => compositeKey r.Provider r.ModelId).toFinset := by
    intro k hk
    rw [List.mem_toFinset] at hk ⊢
    rcases initLoop_keys_subset models [] k hk with h | h
    · simp at h
    · exact h
  have h1 := Finset.card_le_card hs
  rw [List.toFinset_card_of_nodup hn, List.card_toFinset] at h1
  have h2 := length_lt_of_not_nodup _ hd
  simp only [List.length_map] at h1 h2
  omega

/-! ## Lemmas on the loop of `init` and on absent keys -/

theorem mapGet_of_not_mem (l : List AvailableModel) (k : String)
    (hk : k ∉ l.map fun r => compositeKey r.Provider r.ModelId) :
    mapGet (l.map entryOf) k = none := by
  induction l with
  | nil => rfl
  | cons a rest ih =>
    simp only [List.map_cons, List.mem_cons, not_or] at hk
    have hne : ¬ compositeKey a.Provider a.ModelId = k := fun e => hk.1 e.symm
    simp only [List.map_cons, mapGet, entryOf, hne, if_false]
    exact ih hk.2

set_option maxRecDepth 100000 in
theorem nonexistent_not_key (c : ModelConsts)
    (hp : c.ModelProviderOpenAI ≠ c.ModelProviderOpenRouter) :
    compositeKey c.ModelProviderOpenAI "nonexistent" ∉
      (AvailableModels c).map fun r => compositeKey r.Provider r.ModelId := by
  rw [AvailableModels, List.map_append, openAIModels_keys, openRouterModels_keys,
    List.mem_append, not_or]
  constructor
  · intro h
    obtain ⟨m, hm, e⟩ := List.mem_map.1 h
    rw [compositeKey_inj_right] at e
    subst e
    revert hm
    decide
  · intro h
    obtain ⟨m, hm, e⟩ := List.mem_map.1 h
    have hall : ∀ m₂ ∈ ["anthropic/claude-3.7-sonnet", "anthropic/claude-3.5-sonnet",
        "anthropic/claude-3.5-haiku", "google/gemini-pro-1.5",
        "google/gemini-2.0-pro-exp-02-05:free", "google/gemini-2.0-flash-001",
        "deepseek/deepseek-chat", "deepseek/deepseek-r1-reasoning",
        "deepseek/deepseek-r1-no-reasoning", "perplexity/r1-1776",
        "perplexity/sonar-reasoning", "qwen/qwen-2.5-coder-32b-instruct",
        "openai/o3-mini-high", "openai/o3-mini-medium", "openai/o3-mini-low", "openai/o1",
        "openai/gpt-4o", "openai/gpt-4o-mini"],
        endsInSlash "nonexistent" m₂ = false ∧ endsInSlash m₂ "nonexistent" = false := by
      decide
    have := hall m hm
    rcases endsInSlash_of_compositeKey_eq _ _ _ _ hp e.symm with h' | h'
    · rw [this.1] at h'; cases h'
    · rw [this.2] at h'; cases h'

theorem lastWithKey_spec (k : String) (models : List AvailableModel) (x : AvailableModel)
    (h : lastWithKey k models = some x) :
    ∃ pre post, models = pre ++ x :: post ∧ compositeKey x.Provider x.ModelId = k ∧
      ∀ y ∈ post, compositeKey y.Provider y.ModelId ≠ k := by
  induction models with
  | nil => simp [lastWithKey] at h
  | cons m rest ih =>
    simp only [lastWithKey] at h
    cases hl : lastWithKey k rest with
    | some z =>
      rw [hl] at h
      simp only [Option.some.injEq] at h
      subst h
      obtain ⟨pre, post, e, hk, hp⟩ := ih hl
      exact ⟨m :: pre, post, by rw [e]; rfl, hk, hp⟩
    | none =>
      rw [hl] at h
      simp only at h
      split_ifs at h with hm
      simp only [Option.some.injEq] at h
      subst h
      refine ⟨[], rest, rfl, hm, ?_⟩
      intro y hy e
      clear ih
      induction rest with
      | nil => cases hy
      | cons a rest ih2 =>
        simp only [lastWithKey] at hl
        cases hl2 : lastWithKey k rest with
        | some z => rw [hl2] at hl; cases hl
        | none =>
          rw [hl2] at hl
          simp only at hl
          split_ifs at hl with ha
          rcases List.mem_cons.1 hy with rfl | hy'
          · exact ha e
          · exact ih2 hl2 hy'

theorem lastWithKey_isSome (k : String) (models : List AvailableModel) (r : AvailableModel)
    (hr : r ∈ models) (hk : compositeKey r.Provider r.ModelId = k) :
    ∃ x, lastWithKey k models = some x := by
  induction models with
  | nil => cases hr
  | cons m rest ih =>
    simp only [lastWithKey]
    cases hl : lastWithKey k rest with
    | some z => exact ⟨z, rfl⟩
    | none =>
      rcases List.mem_cons.1 hr with rfl | hr'
      · exact ⟨r, by simp [hk]⟩
      · obtain ⟨x, hx⟩ := ih hr'
        rw [hl] at hx; cases hx

theorem initLoop_get (models : List AvailableModel) (idx : ModelMap) (k : String)
    (hc : ∀ r ∈ models, Complete r) :
    mapGet (initLoop models idx).index k =
      match lastWithKey k models with
      | some x => some x
      | none => mapGet idx k := by
  induction models generalizing idx with
  | nil => simp [initLoop, lastWithKey]
  | cons m rest ih =>
    have h1 : checkModel m = none :=
      (checkModel_eq_none_iff m).2 (hc m (List.mem_cons_self _ _))
    simp only [initLoop, h1, lastWithKey]
    rw [ih _ fun r hr => hc r (List.mem_cons_of_mem _ hr)]
    cases hl : lastWithKey k rest with
    | some z => rfl
    | none =>
      simp only
      by_cases hm : compositeKey m.Provider m.ModelId = k
      · rw [if_pos hm, ← hm, mapGet_mapSet_self]
      · rw [if_neg hm, mapGet_mapSet_ne _ _ _ _ hm]

theorem mem_mapSet (m : ModelMap) (k : String) (v : AvailableModel) (e : String × AvailableModel)
    (he : e ∈ mapSet m k v) : e ∈ m ∨ e = (k, v) := by
  induction m with
  | nil =>
    simp only [mapSet, List.mem_singleton] at he
    exact Or.inr he
  | cons a rest ih =>
    obtain ⟨k', v'⟩ := a
    simp only [mapSet] at he
    split_ifs at he with h
    · rcases List.mem_cons.1 he with h1 | h1
      · exact Or.inr h1
      · exact Or.inl (List.mem_cons_of_mem _ h1)
    · rcases List.mem_cons.1 he with h1 | h1
      · exact Or.inl (h1 ▸ List.mem_cons_self _ _)
      · rcases ih h1 with h2 | h2
        · exact Or.inl (List.mem_cons_of_mem _ h2)
        · exact Or.inr h2

theorem LoopInv_step (models : List AvailableModel) (s : LoopState) (h : LoopInv models s) :
    LoopInv models (initStep s) := by
  obtain ⟨⟨pre, hpre⟩, hidx⟩ := h
  unfold initStep
  cases hp : s.panic with
  | some p => simp only [hp]; exact ⟨⟨pre, hpre⟩, hidx⟩
  | none =>
    simp only [hp]
    cases hr : s.remaining with
    | nil => simp only [hr]; exact ⟨⟨pre, hpre⟩, hidx⟩
    | cons model rest =>
      simp only [hr]
      cases hc : checkModel model with
      | some msg =>
        simp only [hc]
        exact ⟨⟨pre, by rw [hpre, hr]⟩, hidx⟩
      | none =>
        simp only [hc]
        refine ⟨⟨pre ++ [model], by rw [hpre, hr]; simp⟩, ?_⟩
        intro e he
        rcases mem_mapSet _ _ _ _ he with h1 | h1
        · exact hidx e h1
        · subst h1
          refine ⟨rfl, ?_, (checkModel_eq_none_iff model).1 hc⟩
          rw [hpre, hr]
          simp

theorem LoopInv_initState (models : List AvailableModel) (n : Nat) :
    LoopInv models (initState models n) := by
  induction n with
  | zero => exact ⟨⟨[], rfl⟩, fun e he => by cases he⟩
  | succ n ih =>
    have : initState models (n + 1) = initStep (initState models n) := by
      unfold initState
      rw [Function.iterate_succ_apply']
    rw [this]
    exact LoopInv_step models _ ih

theorem iterate_initStep (rem : List AvailableModel) (idx : ModelMap) (n : Nat)
    (hn : rem.length ≤ n) :
    (Nat.iterate initStep n { remaining := rem, index := idx, panic := none }).index =
        (initLoop rem idx).index ∧
      (Nat.iterate initStep n { remaining := rem, index := idx, panic := none }).panic =
        (initLoop rem idx).panic := by
  induction n generalizing rem idx with
  | zero =>
    have : rem = [] := List.length_eq_zero.1 (Nat.le_zero.1 hn)
    subst this
    exact ⟨rfl, rfl⟩
  | succ n ih =>
    rw [Function.iterate_succ_apply]
    cases rem with
    | nil =>
      have hs : initStep { remaining := [], index := idx, panic := none } =
          { remaining := [], index := idx, panic := none } := rfl
      rw [hs]
      exact ih [] idx (Nat.zero_le _)
    | cons model rest =>
      cases hc : checkModel model with
      | none =>
        have hs : initStep { remaining := model :: rest, index := idx, panic := none } =
            { remaining := rest,
              index := mapSet idx (compositeKey model.Provider model.ModelId) model,
              panic := none } := by
          simp only [initStep, hc]
        rw [hs]
        simp only [initLoop, hc]
        exact ih rest _ (by simpa using hn)
      | some msg =>
        have hs : initStep { remaining := model :: rest, index := idx, panic := none } =
            { remaining := model :: rest, index := idx,
              panic := some { dumped := model, message := msg } } := by
          simp only [initStep, hc]
        rw [hs]
        simp only [initLoop, hc]
        have hfix : ∀ (k : Nat) (s : LoopState) (p : Panic), s.panic = some p →
            Nat.iterate initStep k s = s := by
          intro k
          induction k with
          | zero => intro s p _; rfl
          | succ k ihk =>
            intro s p hp
            rw [Function.iterate_succ_apply]
            have : initStep s = s := by simp only [initStep, hp]
            rw [this]
            exact ihk s p hp
        rw [hfix n _ _ rfl]
        exact ⟨rfl, rfl⟩

theorem checkModel_eq_firstMissingField (m : AvailableModel) :
    checkModel m = firstMissingField m := by
  unfold checkModel firstMissingField requiredFields
  by_cases h1 : m.Description = ""
  · simp [h1]
  by_cases h2 : m.Provider = ""
  · simp [h1, h2]
  by_cases h3 : m.ModelId = ""
  · simp [h1, h2, h3]
  by_cases h4 : m.DefaultMaxConvoTokens = 0
  · simp [h1, h2, h3, h4]
  by_cases h5 : m.MaxTokens = 0
  · simp [h1, h2, h3, h4, h5]
  by_cases h6 : m.MaxOutputTokens = 0
  · simp [h1, h2, h3, h4, h5, h6]
  by_cases h7 : m.ReservedOutputTokens = 0
  · simp [h1, h2, h3, h4, h5, h6, h7]
  by_cases h8 : m.ApiKeyEnvVar = ""
  · simp [h1, h2, h3, h4, h5, h6, h7, h8]
  by_cases h9 : m.BaseUrl = ""
  · simp [h1, h2, h3, h4, h5, h6, h7, h8, h9]
  by_cases h10 : m.PreferredModelOutputFormat = ""
  · simp [h1, h2, h3, h4, h5, h6, h7, h8, h9, h10]
  simp [h1, h2, h3, h4, h5, h6, h7, h8, h9, h10]

theorem initLoop_append_bad (pre post : List AvailableModel) (x : AvailableModel)
    (msg : String) (idx : ModelMap) (hpre : ∀ r ∈ pre, Complete r)
    (hx : checkModel x = some msg) :
    initLoop (pre ++ x :: post) idx =
      { index := (initLoop pre idx).index, panic := some { dumped := x, message := msg } } := by
  induction pre generalizing idx with
  | nil => simp [initLoop, hx]
  | cons m rest ih =>
    have h1 : checkModel m = none :=
      (checkModel_eq_none_iff m).2 (hpre m (List.mem_cons_self _ _))
    simp only [List.cons_append, initLoop, h1]
    exact ih _ fun r hr => hpre r (List.mem_cons_of_mem _ hr)

theorem exists_first_bad (models : List AvailableModel) (h : ∃ r ∈ models, ¬ Complete r) :
    ∃ pre x post, models = pre ++ x :: post ∧ (∀ r ∈ pre, Complete r) ∧ ¬ Complete x := by
  induction models with
  | nil => obtain ⟨r, hr, _⟩ := h; cases hr
  | cons m rest ih =>
    by_cases hm : Complete m
    · obtain ⟨r, hr, hn⟩ := h
      rcases List.mem_cons.1 hr with rfl | hr'
      · exact absurd hm hn
      · obtain ⟨pre, x, post, e, hp, hx⟩ := ih ⟨r, hr', hn⟩
        refine ⟨m :: pre, x, post, by rw [e]; rfl, ?_, hx⟩
        intro r' hr''
        rcases List.mem_cons.1 hr'' with rfl | h'
        · exact hm
        · exact hp r' h'
    · exact ⟨[], m, rest, rfl, (fun r hr => absurd hr (List.not_mem_nil r)), hm⟩

/-! ## Lookup on the shipped catalog -/

theorem sampleConsts_wellFormed : sampleConsts.WellFormed := by
  constructor <;> decide

theorem init_AvailableModels (c : ModelConsts) (hc : c.WellFormed) :
    init (AvailableModels c) =
      { index := (AvailableModels c).map entryOf, panic := none } := by
  have h := initLoop_of_nodup (AvailableModels c) [] (AvailableModels_complete c hc)
    (by simpa using AvailableModels_keys_nodup c hc.providers_ne)
  simpa [init] using h

theorem lookup_AvailableModels (c : ModelConsts) (hc : c.WellFormed)
    (r : AvailableModel) (hr : r ∈ AvailableModels c) :
    GetAvailableModel (AvailableModelsByComposite c) r.Provider r.ModelId = some r := by
  rw [AvailableModelsByComposite, init_AvailableModels c hc]
  exact mapGet_of_nodup _ r hr (AvailableModels_keys_nodup c hc.providers_ne)

/-- C1. On the shipped catalog, once `init` has built the index (which it does without a
panic), `GetAvailableModel r.Provider r.ModelId` returns exactly the record `r`, for every
record `r` of `AvailableModels`. -/
theorem getAvailableModel_round_trip (c : ModelConsts) (hc : c.WellFormed)
    (r : AvailableModel) (hr : r ∈ AvailableModels c) :
    (init (AvailableModels c)).panic = none ∧
      GetAvailableModel (AvailableModelsByComposite c) r.Provider r.ModelId = some r := by
  refine ⟨?_, lookup_AvailableModels c hc r hr⟩
  rw [init_AvailableModels c hc]

/-- Witness of C1: the lookup of the record `OpenAI gpt-4o` at the sample constants. -/
theorem getAvailableModel_round_trip_witness :
    sampleGpt4o ∈ AvailableModels sampleConsts ∧
      GetAvailableModel (AvailableModelsByComposite sampleConsts) "openai" "openai/gpt-4o" =
        some sampleGpt4o :=
  ⟨by decide,
    (getAvailableModel_round_trip sampleConsts sampleConsts_wellFormed sampleGpt4o
      (by decide)).2⟩

/-- C2, evaluated on the code: the lookup is by the concatenated key only. With the provider
string `p` = OpenAI provider followed by `/openai` and the model id `o1`, no record of the
catalog has `Provider = p` and `ModelId = o1`, yet `GetAvailableModel p "o1"` returns a record,
the one with the OpenAI provider and the model id `openai/o1`, whose `Provider` is not `p`. -/
theorem getAvailableModel_not_exact (c : ModelConsts) (hc : c.WellFormed) :
    (∀ r ∈ AvailableModels c,
        ¬ (r.Provider = c.ModelProviderOpenAI ++ "/openai" ∧ r.ModelId = "o1")) ∧
      ∃ r, GetAvailableModel (AvailableModelsByComposite c)
          (c.ModelProviderOpenAI ++ "/openai") "o1" = some r ∧
        r.Provider = c.ModelProviderOpenAI ∧ r.ModelId = "openai/o1" ∧
        r.Provider ≠ c.ModelProviderOpenAI ++ "/openai" := by
  constructor
  · intro r hr h
    have hid : r.ModelId ∈ (AvailableModels c).map (·.ModelId) := List.mem_map_of_mem _ hr
    rw [h.2] at hid
    revert hid
    simp [AvailableModels, openAIModels, openRouterModels]
  · let r : AvailableModel :=
      { Description := "OpenAI o1", DefaultMaxConvoTokens := 15000,
        Provider := c.ModelProviderOpenAI, ModelName := "o1", ModelId := "openai/o1",
        MaxTokens := 200000, MaxOutputTokens := 100000, ReservedOutputTokens := 40000,
        ApiKeyEnvVar := c.OpenAIEnvVar, ModelCompatibility := c.fullCompatibility,
        BaseUrl := c.OpenAIV1BaseUrl, PreferredModelOutputFormat := c.ModelOutputFormatXml,
        SystemPromptDisabled := true, RoleParamsDisabled := true }
    have hr : r ∈ AvailableModels c := by
      simp [AvailableModels, openAIModels, r]
    have hkey : compositeKey (c.ModelProviderOpenAI ++ "/openai") "o1" =
        compositeKey r.Provider r.ModelId := by
      apply String.ext
      simp [compositeKey, String.data_append, r]
    refine ⟨r, ?_, rfl, rfl, ?_⟩
    · have h := lookup_AvailableModels c hc r hr
      rw [GetAvailableModel] at h ⊢
      rw [hkey]; exact h
    · intro h
      have hlen := congrArg String.length h
      simp [r, String.length_append] at hlen
      exact absurd hlen (by decide)

/-- Witness of the evaluation for C2 at the sample constants: `("openai/openai", "o1")` is the
pair of no record, and the lookup returns the record `OpenAI o1`. -/
theorem getAvailableModel_not_exact_witness :
    (∀ r ∈ AvailableModels sampleConsts, ¬ (r.Provider = "openai/openai" ∧ r.ModelId = "o1")) ∧
      GetAvailableModel (AvailableModelsByComposite sampleConsts) "openai/openai" "o1" =
        some sampleO1 :=
  ⟨(getAvailableModel_not_exact sampleConsts sampleConsts_wellFormed).1, by decide⟩

/-- C3. No two records of the shipped catalog, at different positions, have the same composite
key `Provider + "/" + ModelId`; in particular two records with the same `Provider` and the
same `ModelId` are the same record. The catalog has 24 records and the index built by `init`
has 24 entries. -/
theorem compositeKey_unique (c : ModelConsts) (hc : c.WellFormed) :
    ((AvailableModels c).map fun r => compositeKey r.Provider r.ModelId).Nodup ∧
      (∀ r₁ ∈ AvailableModels c, ∀ r₂ ∈ AvailableModels c,
        r₁.Provider = r₂.Provider → r₁.ModelId = r₂.ModelId → r₁ = r₂) ∧
      (AvailableModels c).length = 24 ∧
      (init (AvailableModels c)).panic = none ∧
      (AvailableModelsByComposite c).length = 24 := by
  have hn := AvailableModels_keys_nodup c hc.providers_ne
  refine ⟨hn, ?_, rfl, ?_, ?_⟩
  · intro r₁ h₁ r₂ h₂ hp hm
    exact List.inj_on_of_nodup_map hn h₁ h₂ (by rw [hp, hm])
  · rw [init_AvailableModels c hc]
  · rw [AvailableModelsByComposite, init_AvailableModels c hc]; rfl

/-- Witness of C3 at the sample constants. -/
theorem compositeKey_unique_witness :
    ((AvailableModels sampleConsts).map fun r => compositeKey r.Provider r.ModelId).Nodup ∧
      (AvailableModelsByComposite sampleConsts).length = 24 :=
  ⟨(compositeKey_unique sampleConsts sampleConsts_wellFormed).1,
    (compositeKey_unique sampleConsts sampleConsts_wellFormed).2.2.2.2⟩

/-! ## Validation -/

/-- C4. For every catalog, `init` aborts with a panic if and only if some record has an empty
`Description`, `Provider`, `ModelId`, `ApiKeyEnvVar`, `BaseUrl` or
`PreferredModelOutputFormat`, or a zero `DefaultMaxConvoTokens`, `MaxTokens`,
`MaxOutputTokens` or `ReservedOutputTokens`; equivalently, `init` completes exactly when every
record has all ten fields set. -/
theorem init_panics_iff (models : List AvailableModel) :
    ((init models).panic ≠ none ↔
        ∃ r ∈ models, r.Description = "" ∨ r.Provider = "" ∨ r.ModelId = "" ∨
          r.ApiKeyEnvVar = "" ∨ r.BaseUrl = "" ∨ r.PreferredModelOutputFormat = "" ∨
          r.DefaultMaxConvoTokens = 0 ∨ r.MaxTokens = 0 ∨ r.MaxOutputTokens = 0 ∨
          r.ReservedOutputTokens = 0) ∧
      ((init models).panic = none ↔
        ∀ r ∈ models, r.Description ≠ "" ∧ r.Provider ≠ "" ∧ r.ModelId ≠ "" ∧
          r.DefaultMaxConvoTokens ≠ 0 ∧ r.MaxTokens ≠ 0 ∧ r.MaxOutputTokens ≠ 0 ∧
          r.ReservedOutputTokens ≠ 0 ∧ r.ApiKeyEnvVar ≠ "" ∧ r.BaseUrl ≠ "" ∧
          r.PreferredModelOutputFormat ≠ "") := by
  have h := initLoop_panic_eq_none_iff models []
  refine ⟨?_, h⟩
  rw [init, ne_eq, h]
  simp only [Complete, not_forall, exists_prop]
  constructor
  · rintro ⟨r, hr, hn⟩
    refine ⟨r, hr, ?_⟩
    by_contra hcon
    simp only [not_or] at hcon
    obtain ⟨h1, h2, h3, h4, h5, h6, h7, h8, h9, h10⟩ := hcon
    exact hn ⟨h1, h2, h3, h7, h8, h9, h10, h4, h5, h6⟩
  · rintro ⟨r, hr, hor⟩
    refine ⟨r, hr, ?_⟩
    rintro ⟨h1, h2, h3, h7, h8, h9, h10, h4, h5, h6⟩
    rcases hor with h | h | h | h | h | h | h | h | h | h <;> contradiction

/-- C5. Every record of the shipped catalog has
`ReservedOutputTokens ≤ MaxOutputTokens ≤ MaxTokens` and a strictly positive effective input
limit `MaxTokens - ReservedOutputTokens`. -/
theorem token_budget_invariant (c : ModelConsts) (r : AvailableModel)
    (hr : r ∈ AvailableModels c) :
    r.ReservedOutputTokens ≤ r.MaxOutputTokens ∧ r.MaxOutputTokens ≤ r.MaxTokens ∧
      0 < r.MaxTokens - r.ReservedOutputTokens ∧ 0 < EffectiveInputLimit r := by
  simp only [AvailableModels, openAIModels, openRouterModels, List.mem_append, List.mem_cons,
    List.mem_singleton, List.not_mem_nil, or_false] at hr
  rcases hr with hr | hr
  · rcases hr with rfl | rfl | rfl | rfl | rfl | rfl <;>
      simp [EffectiveInputLimit, wrapInt]
  · rcases hr with rfl | rfl | rfl | rfl | rfl | rfl | rfl | rfl | rfl | rfl | rfl | rfl | rfl |
      rfl | rfl | rfl | rfl | rfl <;>
      simp [EffectiveInputLimit, wrapInt]

/-- Witness of C5: the record `OpenAI gpt-4o` at the sample constants. -/
theorem token_budget_invariant_witness :
    sampleGpt4o ∈ AvailableModels sampleConsts ∧
      sampleGpt4o.ReservedOutputTokens ≤ sampleGpt4o.MaxOutputTokens ∧
      sampleGpt4o.MaxOutputTokens ≤ sampleGpt4o.MaxTokens ∧
      0 < sampleGpt4o.MaxTokens - sampleGpt4o.ReservedOutputTokens ∧
      0 < EffectiveInputLimit sampleGpt4o :=
  ⟨by decide, token_budget_invariant sampleConsts sampleGpt4o (by decide)⟩

/-- Counterexample to C6: the catalog made of `overReserved` alone passes `init`, and the
effective input limit of its record (`MaxTokens = 1000`, `ReservedOutputTokens = 2000`) is
`-1000`. So it is not the case that every record of an
accepted catalog has a strictly positive effective input limit. -/
theorem effective_limit_not_always_positive :
    ¬ ∀ (models : List AvailableModel) (r : AvailableModel),
        (init models).panic = none → r ∈ models → 0 < EffectiveInputLimit r := by
  intro h
  exact absurd (h [overReserved] overReserved (by decide) (by decide)) (by decide)

/-- C6, amended. For every record of a catalog that `init` accepts whose `MaxTokens` and
`ReservedOutputTokens` are non-negative Go `int` values, the effective input limit that Go
computes is `MaxTokens - ReservedOutputTokens` without overflow, it is strictly less than
`MaxTokens` (the reserve is not zero), and it is strictly positive exactly when
`ReservedOutputTokens < MaxTokens`, a relation that `init` does not check. -/
theorem effective_limit_of_accepted (models : List AvailableModel) (r : AvailableModel)
    (hacc : (init models).panic = none) (hr : r ∈ models)
    (hmax : IsGoInt r.MaxTokens) (hres : IsGoInt r.ReservedOutputTokens)
    (hmax0 : 0 ≤ r.MaxTokens) (hres0 : 0 ≤ r.ReservedOutputTokens) :
    EffectiveInputLimit r = r.MaxTokens - r.ReservedOutputTokens ∧
      EffectiveInputLimit r < r.MaxTokens ∧
      (0 < EffectiveInputLimit r ↔ r.ReservedOutputTokens < r.MaxTokens) := by
  have hc := (initLoop_panic_eq_none_iff models []).1 hacc r hr
  obtain ⟨_, _, _, _, _, _, h7, _⟩ := hc
  unfold IsGoInt at hmax hres
  have he : EffectiveInputLimit r = r.MaxTokens - r.ReservedOutputTokens := by
    unfold EffectiveInputLimit wrapInt
    omega
  rw [he]
  refine ⟨rfl, ?_, ?_⟩ <;> omega

/-- Witness of amended C6: the accepted catalog `[dupFirst]`, whose record has
`MaxTokens = 1000` and `ReservedOutputTokens = 100`. -/
theorem effective_limit_of_accepted_witness :
    (init [dupFirst]).panic = none ∧ dupFirst ∈ [dupFirst] ∧
      EffectiveInputLimit dupFirst = 900 ∧ EffectiveInputLimit dupFirst < dupFirst.MaxTokens ∧
      (0 < EffectiveInputLimit dupFirst ↔
        dupFirst.ReservedOutputTokens < dupFirst.MaxTokens) :=
  ⟨by decide, by decide, by decide,
    (effective_limit_of_accepted [dupFirst] dupFirst (by decide) (by decide) (by decide)
      (by decide) (by decide) (by decide)).2.1,
    (effective_limit_of_accepted [dupFirst] dupFirst (by decide) (by decide) (by decide)
      (by decide) (by decide) (by decide)).2.2⟩

/-- Counterexample to C7: the catalog `[dupFirst, dupSecond]` has two records with the same
`Provider` and `ModelId`, and `init` runs on it to the end without a panic. -/
theorem duplicate_key_not_fatal :
    ¬ ∀ models : List AvailableModel,
        (∃ i j : Fin models.length, i ≠ j ∧
          (models.get i).Provider = (models.get j).Provider ∧
          (models.get i).ModelId = (models.get j).ModelId) →
        (init models).panic ≠ none := by
  intro h
  exact h [dupFirst, dupSecond] ⟨⟨0, by decide⟩, ⟨1, by decide⟩, by decide, by decide,
    by decide⟩ (by decide)

/-- C7, amended. `init` does not detect a duplicate composite key: for every catalog whose
records all have the ten required fields, and in which two records have the same `Provider`
and `ModelId`, `init` runs to the end without a panic and produces an index, which then has
fewer entries than the catalog has records. -/
theorem duplicate_key_accepted (models : List AvailableModel)
    (hc : ∀ r ∈ models, Complete r)
    (hd : ∃ i j : Fin models.length, i ≠ j ∧
      (models.get i).Provider = (models.get j).Provider ∧
      (models.get i).ModelId = (models.get j).ModelId) :
    (init models).panic = none ∧ (init models).index.length < models.length := by
  refine ⟨(initLoop_panic_eq_none_iff models []).2 hc, init_length_lt models ?_⟩
  obtain ⟨i, j, hij, hp, hm⟩ := hd
  intro hn
  have hi : i.1 < (models.map fun r => compositeKey r.Provider r.ModelId).length := by
    simp
  have hj : j.1 < (models.map fun r => compositeKey r.Provider r.ModelId).length := by
    simp
  have heq : (models.map fun r => compositeKey r.Provider r.ModelId).get ⟨i.1, hi⟩ =
      (models.map fun r => compositeKey r.Provider r.ModelId).get ⟨j.1, hj⟩ := by
    simp only [List.get_eq_getElem, List.getElem_map] at hp hm ⊢
    rw [hp, hm]
  have := (List.Nodup.get_inj_iff hn).1 heq
  exact hij (Fin.ext (by simpa using congrArg Fin.val this))

/-- Witness of amended C7: the catalog `[dupFirst, dupSecond]`. -/
theorem duplicate_key_accepted_witness :
    (init [dupFirst, dupSecond]).panic = none ∧
      (init [dupFirst, dupSecond]).index.length < [dupFirst, dupSecond].length :=
  duplicate_key_accepted [dupFirst, dupSecond] (by decide)
    ⟨⟨0, by decide⟩, ⟨1, by decide⟩, by decide, by decide, by decide⟩

/-! ## More on the shipped catalog and on `init` -/

/-- C11. On the index of the shipped catalog, `GetAvailableModel` with the OpenAI provider and
the model id `openai/gpt-4o` returns the record described as `OpenAI gpt-4o`, with
`MaxTokens = 128000`, `MaxOutputTokens = 16384`, `ReservedOutputTokens = 16384` and the
effective input limit `111616`; with the model id `nonexistent` it returns the absent
result. -/
theorem getAvailableModel_gpt4o (c : ModelConsts) (hc : c.WellFormed) :
    (∃ r, GetAvailableModel (AvailableModelsByComposite c) c.ModelProviderOpenAI
          "openai/gpt-4o" = some r ∧
        r.Description = "OpenAI gpt-4o" ∧ r.MaxTokens = 128000 ∧ r.MaxOutputTokens = 16384 ∧
        r.ReservedOutputTokens = 16384 ∧ r.MaxTokens - r.ReservedOutputTokens = 111616 ∧
        EffectiveInputLimit r = 111616) ∧
      GetAvailableModel (AvailableModelsByComposite c) c.ModelProviderOpenAI "nonexistent" =
        none := by
  constructor
  · let r : AvailableModel :=
      { Description := "OpenAI gpt-4o", DefaultMaxConvoTokens := 10000,
        Provider := c.ModelProviderOpenAI, ModelName := "gpt-4o", ModelId := "openai/gpt-4o",
        MaxTokens := 128000, MaxOutputTokens := 16384, ReservedOutputTokens := 16384,
        ApiKeyEnvVar := c.OpenAIEnvVar, ModelCompatibility := c.fullCompatibility,
        BaseUrl := c.OpenAIV1BaseUrl,
        PreferredModelOutputFormat := c.ModelOutputFormatToolCallJson,
        PredictedOutputEnabled := true }
    have hr : r ∈ AvailableModels c := by
      simp [AvailableModels, openAIModels, r]
    exact ⟨r, lookup_AvailableModels c hc r hr, rfl, rfl, rfl, rfl,
      by show (128000 : Int) - 16384 = 111616; norm_num,
      by show wrapInt ((128000 : Int) - 16384) = 111616; decide⟩
  · rw [GetAvailableModel, AvailableModelsByComposite, init_AvailableModels c hc]
    exact mapGet_of_not_mem _ _ (nonexistent_not_key c hc.providers_ne)

/-- Witness of C11 at the sample constants, where the OpenAI provider is `openai`. -/
theorem getAvailableModel_gpt4o_witness :
    GetAvailableModel (AvailableModelsByComposite sampleConsts) "openai" "openai/gpt-4o" =
        some sampleGpt4o ∧ EffectiveInputLimit sampleGpt4o = 111616 ∧
      GetAvailableModel (AvailableModelsByComposite sampleConsts) "openai" "nonexistent" =
        none :=
  ⟨by decide, by decide, (getAvailableModel_gpt4o sampleConsts sampleConsts_wellFormed).2⟩

/-- C12, evaluated on the code: the record `OpenAI o3-mini-high` of the catalog is a record
for o3-mini (`ModelName = "o3-mini"`) with `MaxTokens = 200000` and
`MaxOutputTokens = 100000`, but its `ReservedOutputTokens` is `30000`, not `40000`, and its
effective input limit is `170000`, not `160000`. Every other record for o3-mini has the
documented values. -/
theorem o3_mini_high_reserved (c : ModelConsts) :
    (∃ r ∈ AvailableModels c, r.Description = "OpenAI o3-mini-high" ∧
        r.ModelName = "o3-mini" ∧ r.MaxTokens = 200000 ∧ r.MaxOutputTokens = 100000 ∧
        r.ReservedOutputTokens = 30000 ∧ EffectiveInputLimit r = 170000) ∧
      ∀ r ∈ AvailableModels c, (r.ModelName = "o3-mini" ∨ r.ModelName = "openai/o3-mini") →
        r.Description ≠ "OpenAI o3-mini-high" →
        r.MaxTokens = 200000 ∧ r.MaxOutputTokens = 100000 ∧ r.ReservedOutputTokens = 40000 ∧
          EffectiveInputLimit r = 160000 := by
  constructor
  · refine ⟨_, List.mem_append_left _ (List.mem_cons_self _ _), rfl, rfl, rfl, rfl, rfl, ?_⟩
    show wrapInt ((200000 : Int) - 30000) = 170000
    decide
  · intro r hr
    simp only [AvailableModels, openAIModels, openRouterModels, List.mem_append, List.mem_cons,
      List.mem_singleton, List.not_mem_nil, or_false] at hr
    rcases hr with hr | hr
    · rcases hr with rfl | rfl | rfl | rfl | rfl | rfl <;>
        simp [EffectiveInputLimit, wrapInt]
    · rcases hr with rfl | rfl | rfl | rfl | rfl | rfl | rfl | rfl | rfl | rfl | rfl | rfl |
        rfl | rfl | rfl | rfl | rfl | rfl <;>
        simp [EffectiveInputLimit, wrapInt]

/-- C13. For every catalog that passes validation, duplicates allowed, and every record `r` of
it: `init` ends without a panic, and the lookup of `(r.Provider, r.ModelId)` in the index it
built returns the last record, in catalog order, whose composite key is that of `r`: the
catalog is `pre`, that record `x`, and `post`, and no record of `post` has the key. In
particular, of two records with the same `Provider` and `ModelId` the later one is returned. -/
theorem last_insertion_wins (models : List AvailableModel) (r : AvailableModel)
    (hc : ∀ m ∈ models, checkModel m = none) (hr : r ∈ models) :
    (init models).panic = none ∧
      ∃ pre x post, models = pre ++ x :: post ∧
        compositeKey x.Provider x.ModelId = compositeKey r.Provider r.ModelId ∧
        (∀ y ∈ post, compositeKey y.Provider y.ModelId ≠ compositeKey r.Provider r.ModelId) ∧
        GetAvailableModel (init models).index r.Provider r.ModelId = some x := by
  have hc' : ∀ m ∈ models, Complete m := fun m hm => (checkModel_eq_none_iff m).1 (hc m hm)
  refine ⟨(initLoop_panic_eq_none_iff models []).2 hc', ?_⟩
  obtain ⟨x, hx⟩ := lastWithKey_isSome _ models r hr rfl
  obtain ⟨pre, post, e, hk, hp⟩ := lastWithKey_spec _ models x hx
  refine ⟨pre, x, post, e, hk, hp, ?_⟩
  rw [GetAvailableModel, init, initLoop_get models [] _ hc', hx]

/-- Witness of C13: in the catalog `[dupFirst, dupSecond]` the two records have the same
`Provider` and `ModelId`, and the lookup of the pair of `dupFirst` returns `dupSecond`. -/
theorem last_insertion_wins_witness :
    (init [dupFirst, dupSecond]).panic = none ∧
      GetAvailableModel (init [dupFirst, dupSecond]).index dupFirst.Provider dupFirst.ModelId =
        some dupSecond :=
  ⟨(last_insertion_wins [dupFirst, dupSecond] dupFirst (by decide) (by decide)).1, by decide⟩

/-- C14. For every catalog and after any number `n` of passes of the loop of `init`, the state
in which the loop was stopped by a panic included, every entry `(k, r)` of the index has
`k = r.Provider + "/" + r.ModelId`, `r` is a record of the catalog, and `r` has all ten
required fields set. After as many passes as the catalog has records the state is the one in
which `init` ends, so the same holds of the index that `init` leaves. -/
theorem index_entries_complete (models : List AvailableModel) (n : Nat) :
    (∀ e ∈ (initState models n).index,
        e.1 = compositeKey e.2.Provider e.2.ModelId ∧ e.2 ∈ models ∧ Complete e.2) ∧
      (initState models models.length).index = (init models).index ∧
      (initState models models.length).panic = (init models).panic ∧
      ∀ e ∈ (init models).index,
        e.1 = compositeKey e.2.Provider e.2.ModelId ∧ e.2 ∈ models ∧ Complete e.2 := by
  have hfin := iterate_initStep models [] models.length (le_refl _)
  refine ⟨(LoopInv_initState models n).2, hfin.1, hfin.2, ?_⟩
  have := (LoopInv_initState models models.length).2
  unfold initState at this
  rw [hfin.1] at this
  exact this

/-- Counterexample to C15: the catalog made of `negativeLimits` alone passes `init`, and its
record has `MaxTokens = -1000`. So an accepted record need not have positive limits, and a
negative value is not rejected. -/
theorem negative_limits_accepted :
    ¬ ∀ (models : List AvailableModel) (r : AvailableModel),
        (init models).panic = none → r ∈ models →
        0 < r.MaxTokens ∧ 0 < r.MaxOutputTokens ∧ 0 < r.ReservedOutputTokens ∧
          0 < r.DefaultMaxConvoTokens := by
  intro h
  exact absurd (h [negativeLimits] negativeLimits (by decide) (by decide)).1 (by decide)

/-- C15, amended. Every record of a catalog that `init` accepts has `MaxTokens`,
`MaxOutputTokens`, `ReservedOutputTokens` and `DefaultMaxConvoTokens` different from zero, and
that is all `init` examines of them: the record with any other values in these four fields,
of any sign, passes the checks of `init` if and only if the four values are different from
zero. So a negative value in any of the four fields is accepted. -/
theorem nonzero_limits_of_accepted (models : List AvailableModel) (r : AvailableModel)
    (hacc : (init models).panic = none) (hr : r ∈ models) :
    (r.MaxTokens ≠ 0 ∧ r.MaxOutputTokens ≠ 0 ∧ r.ReservedOutputTokens ≠ 0 ∧
        r.DefaultMaxConvoTokens ≠ 0) ∧
      (∀ convo maxTokens maxOutput reserved : Int,
        checkModel (withLimits r convo maxTokens maxOutput reserved) = none ↔
          convo ≠ 0 ∧ maxTokens ≠ 0 ∧ maxOutput ≠ 0 ∧ reserved ≠ 0) ∧
      (∀ v : Int, v < 0 →
        checkModel { r with MaxTokens := v } = none ∧
        checkModel { r with MaxOutputTokens := v } = none ∧
        checkModel { r with ReservedOutputTokens := v } = none ∧
        checkModel { r with DefaultMaxConvoTokens := v } = none) := by
  have hc := (initLoop_panic_eq_none_iff models []).1 hacc r hr
  obtain ⟨h1, h2, h3, h4, h5, h6, h7, h8, h9, h10⟩ := hc
  refine ⟨⟨h5, h6, h7, h4⟩, ?_, ?_⟩
  · intro convo maxTokens maxOutput reserved
    rw [checkModel_eq_none_iff]
    constructor
    · rintro ⟨_, _, _, g4, g5, g6, g7, _⟩
      exact ⟨g4, g5, g6, g7⟩
    · rintro ⟨g4, g5, g6, g7⟩
      exact ⟨h1, h2, h3, g4, g5, g6, g7, h8, h9, h10⟩
  · intro v hv
    have hv0 : v ≠ 0 := by omega
    refine ⟨?_, ?_, ?_, ?_⟩ <;> rw [checkModel_eq_none_iff]
    · exact ⟨h1, h2, h3, h4, hv0, h6, h7, h8, h9, h10⟩
    · exact ⟨h1, h2, h3, h4, h5, hv0, h7, h8, h9, h10⟩
    · exact ⟨h1, h2, h3, h4, h5, h6, hv0, h8, h9, h10⟩
    · exact ⟨h1, h2, h3, hv0, h5, h6, h7, h8, h9, h10⟩

/-- Witness of amended C15: from the accepted catalog `[dupFirst]`, the record with
`MaxTokens = -1000` alone negative passes the checks, and so does one of mixed signs. -/
theorem nonzero_limits_of_accepted_witness :
    (init [dupFirst]).panic = none ∧ dupFirst.MaxTokens ≠ 0 ∧
      checkModel { dupFirst with MaxTokens := -1000 } = none ∧
      checkModel (withLimits dupFirst 500 (-1000) 200 (-100)) = none :=
  ⟨by decide, (nonzero_limits_of_accepted [dupFirst] dupFirst (by decide) (by decide)).1.1,
    ((nonzero_limits_of_accepted [dupFirst] dupFirst (by decide) (by decide)).2.2 (-1000)
      (by decide)).1,
    ((nonzero_limits_of_accepted [dupFirst] dupFirst (by decide) (by decide)).2.1 500 (-1000)
      200 (-100)).2 (by decide)⟩

/-- C16. For every catalog that fails validation, `init` stops at the first record `x`, in
catalog order, that misses a required field: the catalog is `pre`, `x`, `post` with every
record of `pre` complete; the record dumped is `x`; the message is the one that names the
first missing field of `x` in the order description, provider, model id, default max convo
tokens, max tokens, max output tokens, reserved output tokens, api key env var, base url,
preferred output format; the index is the one built from `pre`; and the outcome is the same
whatever records follow `x`. -/
theorem panic_on_first_offender (models : List AvailableModel)
    (h : ∃ r ∈ models, ¬ Complete r) :
    ∃ pre x post msg, models = pre ++ x :: post ∧ (∀ r ∈ pre, Complete r) ∧ ¬ Complete x ∧
      firstMissingField x = some msg ∧
      init models =
        { index := (init pre).index, panic := some { dumped := x, message := msg } } ∧
      (init pre).panic = none ∧
      ∀ post', init (pre ++ x :: post') = init models := by
  obtain ⟨pre, x, post, e, hpre, hx⟩ := exists_first_bad models h
  cases hc : checkModel x with
  | none => exact absurd ((checkModel_eq_none_iff x).1 hc) hx
  | some msg =>
    refine ⟨pre, x, post, msg, e, hpre, hx, ?_, ?_, ?_, ?_⟩
    · rw [← checkModel_eq_firstMissingField, hc]
    · rw [e]; exact initLoop_append_bad pre post x msg [] hpre hc
    · exact (initLoop_panic_eq_none_iff pre []).2 hpre
    · intro post'
      rw [e]
      exact (initLoop_append_bad pre post' x msg [] hpre hc).trans
        (initLoop_append_bad pre post x msg [] hpre hc).symm

/-- Witness of C16: in the catalog `[dupFirst, missingTwo, noDescription]` the first offender
is `missingTwo`, whose first missing field is the provider; the index holds `dupFirst`
only. -/
theorem panic_on_first_offender_witness :
    (∃ pre x post msg, [dupFirst, missingTwo, noDescription] = pre ++ x :: post ∧
      (∀ r ∈ pre, Complete r) ∧ ¬ Complete x ∧ firstMissingField x = some msg ∧
      init [dupFirst, missingTwo, noDescription] =
        { index := (init pre).index, panic := some { dumped := x, message := msg } } ∧
      (init pre).panic = none ∧
      ∀ post', init (pre ++ x :: post') = init [dupFirst, missingTwo, noDescription]) ∧
    init [dupFirst, missingTwo, noDescription] =
      { index := [("custom/custom/m", dupFirst)],
        panic := some { dumped := missingTwo, message := "model provider is not set" } } :=
  ⟨panic_on_first_offender [dupFirst, missingTwo, noDescription]
    ⟨missingTwo, by decide, by decide⟩, by decide⟩

/-- C17. If the constants the catalog refers to (the two provider names, `OpenAIEnvVar`,
`OpenAIV1BaseUrl`, the OpenRouter entries of `ApiKeyByProvider` and `BaseUrlByProvider`, and
the two output formats) are non-empty strings, then each of the 24 records of
`AvailableModels` passes all ten checks of `init`, and `init` ends without a panic. -/
theorem shipped_catalog_starts_up (c : ModelConsts)
    (h1 : c.ModelProviderOpenAI ≠ "") (h2 : c.ModelProviderOpenRouter ≠ "")
    (h3 : c.OpenAIEnvVar ≠ "") (h4 : c.OpenAIV1BaseUrl ≠ "")
    (h5 : c.ApiKeyByProvider c.ModelProviderOpenRouter ≠ "")
    (h6 : c.BaseUrlByProvider c.ModelProviderOpenRouter ≠ "")
    (h7 : c.ModelOutputFormatToolCallJson ≠ "") (h8 : c.ModelOutputFormatXml ≠ "") :
    (AvailableModels c).length = 24 ∧
      (∀ r ∈ AvailableModels c, checkModel r = none ∧
        r.Description ≠ "" ∧ r.Provider ≠ "" ∧ r.ModelId ≠ "" ∧
        r.DefaultMaxConvoTokens ≠ 0 ∧ r.MaxTokens ≠ 0 ∧ r.MaxOutputTokens ≠ 0 ∧
        r.ReservedOutputTokens ≠ 0 ∧ r.ApiKeyEnvVar ≠ "" ∧ r.BaseUrl ≠ "" ∧
        r.PreferredModelOutputFormat ≠ "") ∧
      (init (AvailableModels c)).panic = none := by
  have hall : ∀ r ∈ AvailableModels c, Complete r := by
    intro r hr
    simp only [AvailableModels, openAIModels, openRouterModels, List.mem_append,
      List.mem_cons, List.mem_singleton, List.not_mem_nil, or_false] at hr
    rcases hr with hr | hr
    · rcases hr with rfl | rfl | rfl | rfl | rfl | rfl <;>
        exact ⟨by simp, h1, by simp, by simp, by simp, by simp, by simp, h3, h4,
          by first | exact h7 | exact h8⟩
    · rcases hr with rfl | rfl | rfl | rfl | rfl | rfl | rfl | rfl | rfl | rfl | rfl | rfl |
        rfl | rfl | rfl | rfl | rfl | rfl <;>
        exact ⟨by simp, h2, by simp, by simp, by simp, by simp, by simp, h5, h6,
          by first | exact h7 | exact h8⟩
  exact ⟨rfl, fun r hr => ⟨(checkModel_eq_none_iff r).2 (hall r hr), hall r hr⟩,
    (initLoop_panic_eq_none_iff _ []).2 hall⟩

/-- Witness of C17 at the sample constants. -/
theorem shipped_catalog_starts_up_witness :
    (init (AvailableModels sampleConsts)).panic = none :=
  (shipped_catalog_starts_up sampleConsts (by decide) (by decide) (by decide) (by decide)
    (by decide) (by decide) (by decide) (by decide)).2.2

/-- C18. Every record `r` of the shipped catalog has
`0 < DefaultMaxConvoTokens ≤ MaxTokens - ReservedOutputTokens`: the summarization threshold
is positive and within the effective input limit. -/
theorem convo_threshold_fits (c : ModelConsts) (r : AvailableModel)
    (hr : r ∈ AvailableModels c) :
    0 < r.DefaultMaxConvoTokens ∧
      r.DefaultMaxConvoTokens ≤ r.MaxTokens - r.ReservedOutputTokens ∧
      r.DefaultMaxConvoTokens ≤ EffectiveInputLimit r := by
  simp only [AvailableModels, openAIModels, openRouterModels, List.mem_append, List.mem_cons,
    List.mem_singleton, List.not_mem_nil, or_false] at hr
  rcases hr with hr | hr
  · rcases hr with rfl | rfl | rfl | rfl | rfl | rfl <;>
      simp [EffectiveInputLimit, wrapInt]
  · rcases hr with rfl | rfl | rfl | rfl | rfl | rfl | rfl | rfl | rfl | rfl | rfl | rfl | rfl |
      rfl | rfl | rfl | rfl | rfl <;>
      simp [EffectiveInputLimit, wrapInt]

/-- Witness of C18: the record `OpenAI gpt-4o` at the sample constants. -/
theorem convo_threshold_fits_witness :
    sampleGpt4o ∈ AvailableModels sampleConsts ∧ 0 < sampleGpt4o.DefaultMaxConvoTokens ∧
      sampleGpt4o.DefaultMaxConvoTokens ≤ EffectiveInputLimit sampleGpt4o :=
  ⟨by decide, (convo_threshold_fits sampleConsts sampleGpt4o (by decide)).1,
    (convo_threshold_fits sampleConsts sampleGpt4o (by decide)).2.2⟩

/-- C19. If the three reasoning-effort constants are non-empty strings, then for every record
`r` of the shipped catalog `ReasoningEffort` is non-empty if and only if
`ReasoningEffortEnabled` is true. -/
theorem reasoning_effort_consistent (c : ModelConsts) (hl : c.ReasoningEffortLow ≠ "")
    (hm : c.ReasoningEffortMedium ≠ "") (hh : c.ReasoningEffortHigh ≠ "")
    (r : AvailableModel) (hr : r ∈ AvailableModels c) :
    r.ReasoningEffort ≠ "" ↔ r.ReasoningEffortEnabled = true := by
  simp only [AvailableModels, openAIModels, openRouterModels, List.mem_append, List.mem_cons,
    List.mem_singleton, List.not_mem_nil, or_false] at hr
  rcases hr with hr | hr
  · rcases hr with rfl | rfl | rfl | rfl | rfl | rfl <;>
      simp [hl, hm, hh]
  · rcases hr with rfl | rfl | rfl | rfl | rfl | rfl | rfl | rfl | rfl | rfl | rfl | rfl | rfl |
      rfl | rfl | rfl | rfl | rfl <;>
      simp [hl, hm, hh]

/-- Witness of C19: the record `OpenAI o3-mini-high` at the sample constants. -/
theorem reasoning_effort_consistent_witness :
    sampleO3MiniHigh ∈ AvailableModels sampleConsts ∧
      (sampleO3MiniHigh.ReasoningEffort ≠ "" ↔ sampleO3MiniHigh.ReasoningEffortEnabled = true) :=
  ⟨by decide, reasoning_effort_consistent sampleConsts (by decide) (by decide) (by decide)
    sampleO3MiniHigh (by decide)⟩

/-! ## Lemmas on `strings.Index` and `strings.Replace` -/

theorem startsWith_iff (sub s : GoString) : startsWith sub s = true ↔ ∃ t, s = sub ++ t := by
  simp only [startsWith, List.isPrefixOf_iff_prefix]
  constructor
  · rintro ⟨t, ht⟩; exact ⟨t, ht.symm⟩
  · rintro ⟨t, ht⟩; exact ⟨t, ht.symm⟩

theorem indexFrom_spec (sub s : GoString) (i : Nat) :
    ((∀ pre post, s ≠ pre ++ sub ++ post) ∧ indexFrom sub s i = -1) ∨
      ∃ pre post, FirstAt sub s pre post ∧ indexFrom sub s i = ((i + pre.length : Nat) : Int) := by
  induction s generalizing i with
  | nil =>
    by_cases hp : startsWith sub [] = true
    · right
      obtain ⟨t, ht⟩ := (startsWith_iff _ _).1 hp
      refine ⟨[], t, ⟨by simpa using ht, fun _ _ _ => Nat.zero_le _⟩, ?_⟩
      simp [indexFrom, hp]
    · left
      refine ⟨fun pre post h => hp ((startsWith_iff _ _).2 ?_), by simp [indexFrom, hp]⟩
      have h' := h.symm
      simp only [List.append_eq_nil] at h'
      exact ⟨[], by simp [h'.1.2]⟩
  | cons b rest ih =>
    by_cases hp : startsWith sub (b :: rest) = true
    · right
      obtain ⟨t, ht⟩ := (startsWith_iff _ _).1 hp
      refine ⟨[], t, ⟨by simpa using ht, fun _ _ _ => Nat.zero_le _⟩, ?_⟩
      simp [indexFrom, hp]
    · have hidx : indexFrom sub (b :: rest) i = indexFrom sub rest (i + 1) := by
        simp [indexFrom, hp]
      rcases ih (i + 1) with ⟨hno, hi⟩ | ⟨pre, post, ⟨hs, hmin⟩, hi⟩
      · left
        refine ⟨fun pre post h => ?_, by rw [hidx, hi]⟩
        cases pre with
        | nil => exact hp ((startsWith_iff _ _).2 ⟨post, by simpa using h⟩)
        | cons a pre =>
          simp only [List.cons_append, List.cons.injEq] at h
          exact hno pre post h.2
      · right
        refine ⟨b :: pre, post, ⟨by simp [hs], fun pre' post' h => ?_⟩, ?_⟩
        · cases pre' with
          | nil => exact absurd ((startsWith_iff _ _).2 ⟨post', by simpa using h⟩) hp
          | cons a pre' =>
            simp only [List.cons_append, List.cons.injEq] at h
            have := hmin pre' post' h.2
            simp only [List.length_cons]; omega
        · rw [hidx, hi]; simp only [List.length_cons]; congr 1; omega

theorem firstAt_unique (sub s pre post pre' post' : GoString) (h : FirstAt sub s pre post)
    (h' : FirstAt sub s pre' post') : pre = pre' ∧ post = post' := by
  have hl : pre.length = pre'.length :=
    Nat.le_antisymm (h.2 pre' post' h'.1) (h'.2 pre post h.1)
  have e : pre ++ (sub ++ post) = pre' ++ (sub ++ post') := by
    rw [← List.append_assoc, ← List.append_assoc, ← h.1, ← h'.1]
  have e1 := List.append_inj e hl
  exact ⟨e1.1, List.append_cancel_left e1.2⟩

theorem Index_of_firstAt (sub s pre post : GoString) (h : FirstAt sub s pre post) :
    Index s sub = (pre.length : Int) := by
  rcases indexFrom_spec sub s 0 with ⟨hno, _⟩ | ⟨pre', post', h', hi⟩
  · exact absurd h.1 (hno pre post)
  · rw [Index, hi, (firstAt_unique _ _ _ _ _ _ h h').1]; simp

theorem Index_of_absent (sub s : GoString) (h : ∀ pre post, s ≠ pre ++ sub ++ post) :
    Index s sub = -1 := by
  rcases indexFrom_spec sub s 0 with ⟨_, hi⟩ | ⟨pre', post', h', _⟩
  · exact hi
  · exact absurd h'.1 (h pre' post')

theorem countLoop_ge (sub : GoString) (fuel : Nat) (s : GoString) (n : Int) :
    n ≤ countLoop sub fuel s n := by
  induction fuel generalizing s n with
  | zero => simp [countLoop]
  | succ fuel ih =>
    simp only [countLoop]
    split
    · exact le_refl _
    · exact le_trans (by omega) (ih _ _)

theorem Replace_first (s old new pre post : GoString) (hne : old ≠ new) (hold : old ≠ [])
    (h : FirstAt old s pre post) : Replace s old new 1 = pre ++ new ++ post := by
  have hi := Index_of_firstAt old s pre post h
  have hlen : old.length ≠ 0 := by simpa using hold
  have hcount : 1 ≤ Count s old := by
    have hne1 : ¬ (Index s old = -1) := by rw [hi]; omega
    simp only [Count, hlen, if_false, countLoop, hne1]
    exact countLoop_ge _ _ _ _
  have hm0 : ¬ Count s old = 0 := by omega
  have hn : ¬ ((1 : Int) < 0 ∨ Count s old < 1) := by omega
  simp only [Replace, hne, false_or, one_ne_zero, if_false, hm0, hn, Int.toNat_one,
    replaceLoop, hlen, List.drop_zero, hi, Int.toNat_ofNat, Nat.zero_add, List.nil_append,
    slice, Nat.sub_zero]
  rw [h.1]
  simp [List.take_append_eq_append_take, List.drop_append_eq_append_drop]

theorem Replace_absent (s old new : GoString) (n : Int) (hold : old ≠ [])
    (h : ∀ pre post, s ≠ pre ++ old ++ post) : Replace s old new n = s := by
  have hi := Index_of_absent old s h
  have hlen : old.length ≠ 0 := by simpa using hold
  have hcount : Count s old = 0 := by
    simp [Count, hlen, countLoop, hi]
  simp [Replace, hcount]

theorem lit_api : lit "api." = [0x61, 0x70, 0x69, 0x2E] := by decide
theorem lit_app : lit "app." = [0x61, 0x70, 0x70, 0x2E] := by decide

theorem appHost_first (h pre post : GoString) (hf : FirstAt (lit "api.") h pre post) :
    appHost h = pre ++ lit "app." ++ post :=
  Replace_first h _ _ pre post (by decide) (by decide) hf

theorem appHost_absent (h : GoString) (hn : ∀ pre post, h ≠ pre ++ lit "api." ++ post) :
    appHost h = h :=
  Replace_absent h _ _ 1 (by decide) hn

theorem appHost_length (h : GoString) : (appHost h).length = h.length := by
  rcases indexFrom_spec (lit "api.") h 0 with ⟨hno, _⟩ | ⟨pre, post, hf, _⟩
  · rw [appHost_absent h hno]
  · rw [appHost_first h pre post hf]
    conv_rhs => rw [hf.1]
    simp [lit_api, lit_app]

theorem startsWith_drop_of_eq (sub s pre post : GoString) (h : s = pre ++ sub ++ post) :
    startsWith sub (s.drop pre.length) = true := by
  rw [startsWith_iff]
  exact ⟨post, by simp [h]⟩

theorem encodeURL_urlSafe (i : Nat) : urlSafe (encodeURL i) := by
  unfold urlSafe encodeURL
  split_ifs
  · simp [Fin.ofNat]; omega
  · simp [Fin.ofNat]; omega
  · simp [Fin.ofNat]; omega
  · decide
  · decide

theorem padChar_urlSafe : urlSafe padChar := by
  unfold urlSafe padChar; decide

theorem EncodeToString_urlSafe (s : GoString) : ∀ b ∈ EncodeToString s, urlSafe b := by
  induction s using EncodeToString.induct with
  | case1 => simp [EncodeToString]
  | case2 b0 =>
    intro b hb
    simp only [EncodeToString, List.mem_cons, List.mem_singleton, List.not_mem_nil,
      or_false] at hb
    rcases hb with rfl | rfl | rfl | rfl <;>
      first | exact encodeURL_urlSafe _ | exact padChar_urlSafe
  | case3 b0 b1 =>
    intro b hb
    simp only [EncodeToString, List.mem_cons, List.mem_singleton, List.not_mem_nil,
      or_false] at hb
    rcases hb with rfl | rfl | rfl | rfl <;>
      first | exact encodeURL_urlSafe _ | exact padChar_urlSafe
  | case4 b0 b1 b2 rest ih =>
    intro b hb
    simp only [EncodeToString, List.mem_append, List.mem_cons, List.mem_singleton,
      List.not_mem_nil, or_false] at hb
    rcases hb with (rfl | rfl | rfl | rfl) | hb
    · exact encodeURL_urlSafe _
    · exact encodeURL_urlSafe _
    · exact encodeURL_urlSafe _
    · exact encodeURL_urlSafe _
    · exact ih b hb

/-! ## Lemmas on base64 -/

theorem val_ofNat (n : Nat) (h : n < 256) : ((Fin.ofNat n : Byte) : Nat) = n := by
  simp [Fin.ofNat]; omega

theorem encodeURL_val (i : Nat) (h : i < 64) :
    (encodeURL i).val =
      if i < 26 then 65 + i else if i < 52 then 71 + i else if i < 62 then i - 4
      else if i = 62 then 45 else 95 := by
  unfold encodeURL
  split_ifs
  · rw [val_ofNat _ (by omega)]
  · rw [val_ofNat _ (by omega)]; omega
  · rw [val_ofNat _ (by omega)]; omega
  · rfl
  · rfl

theorem decodeURLChar_encodeURL (i : Nat) (h : i < 64) :
    decodeURLChar (encodeURL i) = some i := by
  unfold decodeURLChar
  rw [encodeURL_val i h]
  split_ifs <;> first | omega | (simp only [Option.some.injEq]; omega)

theorem encodeURL_ne_padChar (i : Nat) (h : i < 64) : encodeURL i ≠ padChar := by
  intro e
  have h1 := congrArg Fin.val e
  rw [encodeURL_val i h] at h1
  have : padChar.val = 61 := rfl
  rw [this] at h1
  split_ifs at h1 <;> omega

theorem DecodeString_EncodeToString (s : GoString) :
    DecodeString (EncodeToString s) = some s := by
  induction s using EncodeToString.induct with
  | case1 => rfl
  | case2 b0 =>
    have hb0 := b0.isLt
    simp only [EncodeToString, DecodeString]
    rw [decodeURLChar_encodeURL _ (by omega), decodeURLChar_encodeURL _ (by omega)]
    simp only [and_self, if_true, Option.some.injEq, List.cons.injEq, and_true]
    apply Fin.ext
    rw [val_ofNat _ (by omega)]
    omega
  | case3 b0 b1 =>
    have hb0 := b0.isLt
    have hb1 := b1.isLt
    simp only [EncodeToString, DecodeString]
    rw [decodeURLChar_encodeURL _ (by omega), decodeURLChar_encodeURL _ (by omega),
      decodeURLChar_encodeURL _ (by omega)]
    have hne := encodeURL_ne_padChar ((b0.val * 0x10000 + b1.val * 0x100) / 0x40 % 0x40)
      (by omega)
    simp only [hne, false_and, and_false, if_false, and_self, if_true, Option.some.injEq,
      List.cons.injEq, and_true]
    constructor
    · apply Fin.ext
      rw [val_ofNat _ (by omega)]
      omega
    · apply Fin.ext
      rw [val_ofNat _ (by omega)]
      omega
  | case4 b0 b1 b2 rest ih =>
    have hb0 := b0.isLt
    have hb1 := b1.isLt
    have hb2 := b2.isLt
    simp only [EncodeToString, List.cons_append, List.nil_append, DecodeString]
    rw [decodeURLChar_encodeURL _ (by omega), decodeURLChar_encodeURL _ (by omega),
      decodeURLChar_encodeURL _ (by omega), decodeURLChar_encodeURL _ (by omega)]
    have hne2 := encodeURL_ne_padChar
      ((b0.val * 0x10000 + b1.val * 0x100 + b2.val) / 0x40 % 0x40) (by omega)
    have hne3 := encodeURL_ne_padChar
      ((b0.val * 0x10000 + b1.val * 0x100 + b2.val) % 0x40) (by omega)
    simp only [hne2, hne3, false_and, and_false, if_false, List.append_eq, List.nil_append, ih,
      Option.map_some',
      Option.some.injEq, List.cons.injEq, and_true]
    refine ⟨?_, ?_, ?_⟩
    · apply Fin.ext
      rw [val_ofNat _ (by omega)]
      omega
    · apply Fin.ext
      rw [val_ofNat _ (by omega)]
      omega
    · apply Fin.ext
      rw [val_ofNat _ (by omega)]
      omega

/-! ## Lemmas on the reading of JSON strings -/

theorem val_quote : ((0x22 : Byte) : Nat) = 0x22 := rfl

theorem val_backslash : ((0x5C : Byte) : Nat) = 0x5C := rfl

theorem val_u : ((0x75 : Byte) : Nat) = 0x75 := rfl

theorem unquoteLoop_mono (fuel : Nat) (s : GoString) (r : GoString × GoString)
    (h : unquoteLoop fuel s = some r) : ∀ n, unquoteLoop (fuel + n) s = some r := by
  induction fuel generalizing s r with
  | zero => simp [unquoteLoop] at h
  | succ fuel ih =>
    intro n
    rw [Nat.add_right_comm]
    cases s with
    | nil => simp [unquoteLoop] at h
    | cons b rest =>
      simp only [unquoteLoop] at h ⊢
      split_ifs at h ⊢ with h1 h2 h3
      · exact h
      · cases he : unquoteEscape rest with
        | none => simp [he] at h
        | some q =>
          obtain ⟨out, rest1⟩ := q
          simp only [he] at h ⊢
          cases hl : unquoteLoop fuel rest1 with
          | none => simp [hl] at h
          | some p => rw [ih _ _ hl n]; rw [hl] at h; exact h
      · cases hl : unquoteLoop fuel rest with
        | none => simp [hl] at h
        | some p => rw [ih _ _ hl n]; rw [hl] at h; exact h

theorem unquoteLoop_plain (fuel : Nat) (b : Byte) (X y tail : GoString) (h1 : 0x20 ≤ b.val)
    (h2 : b.val ≠ 0x22) (h3 : b.val ≠ 0x5C) (h : unquoteLoop fuel X = some (y, tail)) :
    unquoteLoop (fuel + 1) (b :: X) = some (b :: y, tail) := by
  simp only [unquoteLoop]
  rw [if_neg h2, if_neg h3, if_neg (by omega), h]; rfl

theorem unquoteLoop_plain_list (l : GoString) (fuel : Nat) (X y tail : GoString)
    (hl : ∀ b ∈ l, 0x20 ≤ b.val ∧ b.val ≠ 0x22 ∧ b.val ≠ 0x5C)
    (h : unquoteLoop fuel X = some (y, tail)) :
    unquoteLoop (fuel + l.length) (l ++ X) = some (l ++ y, tail) := by
  induction l with
  | nil => simpa using h
  | cons b l ih =>
    have hb := hl b (List.mem_cons_self _ _)
    have := ih fun x hx => hl x (List.mem_cons_of_mem _ hx)
    rw [List.length_cons, ← Nat.add_assoc, List.cons_append, List.cons_append]
    exact unquoteLoop_plain _ b _ _ _ hb.1 hb.2.1 hb.2.2 this

theorem unquoteLoop_quote (fuel : Nat) (X : GoString) :
    unquoteLoop (fuel + 1) (0x22 :: X) = some ([], X) := by
  simp only [unquoteLoop]
  rw [if_pos val_quote]

theorem surrogatePair_none (r : Nat) (X : GoString) (h : r < 0xD800) :
    surrogatePair r X = none := by
  unfold surrogatePair
  split
  · split
    · rw [if_neg (by omega)]
    · rfl
  · rfl

theorem unquoteLoop_u (fuel : Nat) (h1 h2 h3 h4 : Byte) (r : Nat) (X y tail : GoString)
    (hr : hex4 h1 h2 h3 h4 = some r) (hlt : r < 0xD800)
    (h : unquoteLoop fuel X = some (y, tail)) :
    unquoteLoop (fuel + 1) (0x5C :: 0x75 :: h1 :: h2 :: h3 :: h4 :: X) =
      some (EncodeRune r ++ y, tail) := by
  have he : unquoteEscape (0x75 :: h1 :: h2 :: h3 :: h4 :: X) = some (EncodeRune r, X) := by
    simp only [unquoteEscape]
    rw [if_pos val_u]
    simp only [unquoteU, hr, surrogatePair_none r X hlt]
  simp only [unquoteLoop]
  rw [if_neg (by decide), if_pos val_backslash]
  simp only [he, h, Option.map_some']

theorem unquoteLoop_two (fuel : Nat) (ch x : Byte) (X y tail : GoString) (hu : ch.val ≠ 0x75)
    (hx : unescapeChar ch = some x) (h : unquoteLoop fuel X = some (y, tail)) :
    unquoteLoop (fuel + 1) (0x5C :: ch :: X) = some (x :: y, tail) := by
  have he : unquoteEscape (ch :: X) = some ([x], X) := by
    simp only [unquoteEscape]
    rw [if_neg hu]
    simp only [hx]
  simp only [unquoteLoop]
  rw [if_neg (by decide), if_pos val_backslash]
  simp only [he, h, Option.map_some', List.singleton_append]

theorem hexDigit_val (i : Nat) (h : i < 16) :
    (hexDigit i).val = if i < 10 then 0x30 + i else 0x57 + i := by
  unfold hexDigit
  split_ifs
  · rw [val_ofNat _ (by omega)]
  · rw [val_ofNat _ (by omega)]; omega

theorem hexValue_hexDigit (i : Nat) (h : i < 16) : hexValue (hexDigit i) = some i := by
  unfold hexValue
  rw [hexDigit_val i h]
  split_ifs <;> first | omega | (simp only [Option.some.injEq]; omega)

theorem byte_eq_of_val (b : Byte) (n : Nat) (h : b.val = n) (hn : n < 256) :
    (Fin.ofNat n : Byte) = b := by
  apply Fin.ext
  rw [val_ofNat _ hn, h]

theorem EncodeRune_ascii (b : Byte) (h : b.val < 0x80) : EncodeRune b.val = [b] := by
  unfold EncodeRune
  rw [if_pos h, byte_eq_of_val b _ rfl b.isLt]

theorem unquoteLoop_ascii (fuel : Nat) (b : Byte) (X y tail : GoString) (hb : b.val < 0x80)
    (h : unquoteLoop fuel X = some (y, tail)) :
    unquoteLoop (fuel + 1) ((if htmlSafe b then [b] else escapeByte b) ++ X) =
      some (b :: y, tail) := by
  by_cases hs : htmlSafe b = true
  · rw [if_pos hs]
    simp only [htmlSafe, decide_eq_true_eq] at hs
    exact unquoteLoop_plain fuel b X y tail hs.1 hs.2.2.1 hs.2.2.2.1 h
  · rw [if_neg hs]
    unfold escapeByte
    by_cases h1 : b.val = 0x5C ∨ b.val = 0x22
    · rw [if_pos h1]
      refine unquoteLoop_two fuel b b X y tail (by omega) ?_ h
      unfold unescapeChar
      rcases h1 with h1 | h1
      · rw [if_neg (by omega), if_pos h1]; exact congrArg some (Fin.ext h1.symm)
      · rw [if_pos h1]; exact congrArg some (Fin.ext h1.symm)
    rw [if_neg h1]
    by_cases h2 : b.val = 0x08
    · rw [if_pos h2]
      have : b = 0x08 := Fin.ext (by assumption)
      subst this
      exact unquoteLoop_two fuel _ _ X y tail (by decide) (by decide) h
    rw [if_neg h2]
    by_cases h3 : b.val = 0x0C
    · rw [if_pos h3]
      have : b = 0x0C := Fin.ext (by assumption)
      subst this
      exact unquoteLoop_two fuel _ _ X y tail (by decide) (by decide) h
    rw [if_neg h3]
    by_cases h4 : b.val = 0x0A
    · rw [if_pos h4]
      have : b = 0x0A := Fin.ext (by assumption)
      subst this
      exact unquoteLoop_two fuel _ _ X y tail (by decide) (by decide) h
    rw [if_neg h4]
    by_cases h5 : b.val = 0x0D
    · rw [if_pos h5]
      have : b = 0x0D := Fin.ext (by assumption)
      subst this
      exact unquoteLoop_two fuel _ _ X y tail (by decide) (by decide) h
    rw [if_neg h5]
    by_cases h6 : b.val = 0x09
    · rw [if_pos h6]
      have : b = 0x09 := Fin.ext (by assumption)
      subst this
      exact unquoteLoop_two fuel _ _ X y tail (by decide) (by decide) h
    rw [if_neg h6]
    have hx : hex4 0x30 0x30 (hexDigit (b.val / 16)) (hexDigit (b.val % 16)) = some b.val := by
      unfold hex4
      rw [hexValue_hexDigit _ (by omega), hexValue_hexDigit _ (by omega)]
      have h0 : hexValue 0x30 = some 0 := by decide
      simp only [h0, Option.some.injEq]
      omega
    have := unquoteLoop_u fuel _ _ _ _ b.val X y tail hx (by omega) h
    rw [EncodeRune_ascii b hb] at this
    exact this

/-! ## Lemmas on `utf8.DecodeRuneInString` -/

theorem DecodeRune_cons (s0 : Byte) (rest : GoString) :
    DecodeRuneInString (s0 :: rest) =
      if s0.val < 0x80 then (s0.val, 1)
      else if s0.val < 0xC2 ∨ 0xF4 < s0.val then (0xFFFD, 1)
      else decodeMulti (acceptInfo s0).1 (acceptInfo s0).2.1 (acceptInfo s0).2.2 s0 rest :=
  rfl

theorem DecodeRune_ascii (b : Byte) (rest : GoString) (h : b.val < 0x80) :
    DecodeRuneInString (b :: rest) = (b.val, 1) := by
  rw [DecodeRune_cons, if_pos h]

theorem acceptInfo_bounds (s0 : Byte) :
    (acceptInfo s0).1 = (if s0.val < 0xE0 then 2 else if s0.val < 0xF0 then 3 else 4) ∧
      0x80 ≤ (acceptInfo s0).2.1 ∧ (acceptInfo s0).2.2 ≤ 0xBF := by
  unfold acceptInfo
  refine ⟨rfl, ?_, ?_⟩
  · show 0x80 ≤ (if s0.val = 0xE0 then 0xA0 else if s0.val = 0xF0 then 0x90 else 0x80)
    split_ifs <;> omega
  · show (if s0.val = 0xED then 0x9F else if s0.val = 0xF4 then 0x8F else 0xBF) ≤ 0xBF
    split_ifs <;> omega

theorem decodeMulti_shape (sz lo hi : Nat) (s0 : Byte) (rest : GoString)
    (hsz : sz = 2 ∨ sz = 3 ∨ sz = 4) (hlo : 0x80 ≤ lo) (hhi : hi ≤ 0xBF) :
    MultiShape sz s0 rest (decodeMulti sz lo hi s0 rest) := by
  unfold decodeMulti
  by_cases hlen : rest.length + 1 < sz
  · rw [if_pos hlen]; exact Or.inl rfl
  rw [if_neg hlen]
  rcases rest with _ | ⟨s1, rest1⟩
  · exact Or.inl rfl
  simp only []
  by_cases h1 : s1.val < lo ∨ hi < s1.val
  · rw [if_pos h1]; exact Or.inl rfl
  rw [if_neg h1]
  by_cases h2 : sz ≤ 2
  · rw [if_pos h2]
    exact Or.inr (Or.inl ⟨s1, rest1, rfl, by omega, by omega, by omega, rfl⟩)
  rw [if_neg h2]
  rcases rest1 with _ | ⟨s2, rest2⟩
  · exact Or.inl rfl
  simp only []
  by_cases h3 : s2.val < 0x80 ∨ 0xBF < s2.val
  · rw [if_pos h3]; exact Or.inl rfl
  rw [if_neg h3]
  by_cases h4 : sz ≤ 3
  · rw [if_pos h4]
    exact Or.inr (Or.inr (Or.inl ⟨s1, s2, rest2, rfl, by omega, by omega, by omega, by omega,
      by omega, rfl⟩))
  rw [if_neg h4]
  rcases rest2 with _ | ⟨s3, rest3⟩
  · exact Or.inl rfl
  simp only []
  by_cases h5 : s3.val < 0x80 ∨ 0xBF < s3.val
  · rw [if_pos h5]; exact Or.inl rfl
  rw [if_neg h5]
  exact Or.inr (Or.inr (Or.inr ⟨s1, s2, s3, rest3, rfl, by omega, by omega, by omega,
    by omega, by omega, by omega, by omega, rfl⟩))

theorem DecodeRune_shape (b : Byte) (rest : GoString) (hb : 0x80 ≤ b.val) :
    MultiShape (if b.val < 0xE0 then 2 else if b.val < 0xF0 then 3 else 4) b rest
      (DecodeRuneInString (b :: rest)) := by
  rw [DecodeRune_cons, if_neg (show ¬ b.val < 0x80 by omega)]
  by_cases h : b.val < 0xC2 ∨ 0xF4 < b.val
  · rw [if_pos h]; exact Or.inl rfl
  rw [if_neg h]
  obtain ⟨h1, h2, h3⟩ := acceptInfo_bounds b
  have := decodeMulti_shape (acceptInfo b).1 (acceptInfo b).2.1 (acceptInfo b).2.2 b rest
    (by rw [h1]; split_ifs <;> simp) h2 h3
  rw [h1] at this
  exact this

theorem decodeMulti_take4 (sz lo hi : Nat) (s0 : Byte) (rest : GoString) (hsz : sz ≤ 4) :
    decodeMulti sz lo hi s0 (rest.take 3) = decodeMulti sz lo hi s0 rest := by
  rcases rest with _ | ⟨s1, _ | ⟨s2, _ | ⟨s3, rest3⟩⟩⟩
  · rfl
  · rfl
  · rfl
  · unfold decodeMulti
    simp only [List.take_succ_cons, List.take_zero, List.length_cons, List.length_nil]
    rw [if_neg (show ¬ (rest3.length + 1 + 1 + 1 + 1 < sz) by omega),
      if_neg (show ¬ (0 + 1 + 1 + 1 + 1 < sz) by omega)]

theorem DecodeRune_slice (s : GoString) :
    DecodeRuneInString (slice s 0 4) = DecodeRuneInString s := by
  rcases s with _ | ⟨b, rest⟩
  · rfl
  · have e : slice (b :: rest) 0 4 = b :: rest.take 3 := by simp [slice]
    rw [e, DecodeRune_cons, DecodeRune_cons]
    rw [decodeMulti_take4 _ _ _ _ _ (by rw [(acceptInfo_bounds b).1]; split_ifs <;> omega)]

/-! ## Lemmas on `appendString` and its reading -/

theorem appendStringLoop_succ (f : Nat) (b : Byte) (rest : GoString) :
    appendStringLoop (f + 1) (b :: rest) =
      if b.val < 0x80 then
        (if htmlSafe b then [b] else escapeByte b) ++ appendStringLoop f rest
      else if (DecodeRuneInString (slice (b :: rest) 0 4)).1 = 0xFFFD ∧
          (DecodeRuneInString (slice (b :: rest) 0 4)).2 = 1 then
        lit "\\ufffd" ++ appendStringLoop f rest
      else if (DecodeRuneInString (slice (b :: rest) 0 4)).1 = 0x2028 ∨
          (DecodeRuneInString (slice (b :: rest) 0 4)).1 = 0x2029 then
        [0x5C, 0x75, 0x32, 0x30, 0x32,
            hexDigit ((DecodeRuneInString (slice (b :: rest) 0 4)).1 % 16)] ++
          appendStringLoop f ((b :: rest).drop (DecodeRuneInString (slice (b :: rest) 0 4)).2)
      else
        slice (b :: rest) 0 (DecodeRuneInString (slice (b :: rest) 0 4)).2 ++
          appendStringLoop f ((b :: rest).drop (DecodeRuneInString (slice (b :: rest) 0 4)).2) :=
  rfl

theorem validLoop_succ (f : Nat) (b : Byte) (rest : GoString) :
    validLoop (f + 1) (b :: rest) =
      if (DecodeRuneInString (b :: rest)).1 = 0xFFFD ∧ (DecodeRuneInString (b :: rest)).2 = 1
      then false
      else validLoop f ((b :: rest).drop (DecodeRuneInString (b :: rest)).2) :=
  rfl

theorem escape_length_pos (b : Byte) :
    1 ≤ (if htmlSafe b then [b] else escapeByte b).length := by
  unfold escapeByte
  split_ifs <;> simp

theorem EncodeRune_three (s0 s1 s2 : Byte) (c : Nat) (h0 : 0xE0 ≤ s0.val) (h0' : s0.val < 0xF0)
    (h1 : 0x80 ≤ s1.val) (h1' : s1.val ≤ 0xBF) (h2 : 0x80 ≤ s2.val) (h2' : s2.val ≤ 0xBF)
    (hc : c = (s0.val % 0x10) * 0x1000 + (s1.val % 0x40) * 0x40 + s2.val % 0x40)
    (h28 : c = 0x2028 ∨ c = 0x2029) :
    EncodeRune c = [s0, s1, s2] ∧
      hex4 0x32 0x30 0x32 (hexDigit (c % 16)) = some c := by
  have e0 : s0 = 0xE2 := Fin.ext (by show s0.val = 0xE2; omega)
  have e1 : s1 = 0x80 := Fin.ext (by show s1.val = 0x80; omega)
  rcases h28 with h | h
  · have e2 : s2 = 0xA8 := Fin.ext (by show s2.val = 0xA8; omega)
    subst e0 e1 e2 h
    exact ⟨by decide, by decide⟩
  · have e2 : s2 = 0xA9 := Fin.ext (by show s2.val = 0xA9; omega)
    subst e0 e1 e2 h
    exact ⟨by decide, by decide⟩

theorem step_ascii (f : Nat) (b : Byte) (rest : GoString) (hb : b.val < 0x80)
    (hv : validLoop (f + 1) (b :: rest) = true) :
    StepOk f (b :: rest) [b] rest (if htmlSafe b then [b] else escapeByte b) 1 := by
  rw [validLoop_succ, DecodeRune_ascii b rest hb] at hv
  rw [if_neg (by simp only []; omega)] at hv
  refine ⟨rfl, by simp, by simpa using hv, ?_, le_refl _, escape_length_pos b, ?_⟩
  · rw [appendStringLoop_succ, if_pos hb]
  · intro fuel X y tail h
    exact unquoteLoop_ascii fuel b X y tail hb h

theorem step_copy (f : Nat) (b : Byte) (rest l tl : GoString) (c : Nat) (hb : 0x80 ≤ b.val)
    (hs : b :: rest = l ++ tl) (hl : 1 ≤ l.length) (hall : ∀ x ∈ l, 0x80 ≤ x.val)
    (hd : DecodeRuneInString (b :: rest) = (c, l.length))
    (hc : c ≠ 0x2028 ∧ c ≠ 0x2029)
    (hv : validLoop (f + 1) (b :: rest) = true) :
    StepOk f (b :: rest) l tl l l.length := by
  rw [validLoop_succ, hd] at hv
  have hne : ¬ (c = 0xFFFD ∧ l.length = 1) := by
    intro h; rw [if_pos h] at hv; cases hv
  rw [if_neg hne] at hv
  have hdrop : (b :: rest).drop l.length = tl := by rw [hs]; simp
  have htake : slice (b :: rest) 0 l.length = l := by rw [hs]; simp [slice]
  simp only [] at hv
  rw [hdrop] at hv
  refine ⟨hs, hl, hv, ?_, hl, le_refl _, ?_⟩
  · rw [appendStringLoop_succ, if_neg (by omega), DecodeRune_slice, hd]
    simp only []
    rw [if_neg hne, if_neg (by omega), hdrop, htake]
  · intro fuel X y tail h
    exact unquoteLoop_plain_list l fuel X y tail
      (fun x hx => by have := hall x hx; omega) h

theorem step_multi (f : Nat) (b : Byte) (rest : GoString) (hb : 0x80 ≤ b.val)
    (hv : validLoop (f + 1) (b :: rest) = true) :
    ∃ l tl out k, StepOk f (b :: rest) l tl out k := by
  have hshape := DecodeRune_shape b rest hb
  have hv' := hv
  rw [validLoop_succ] at hv'
  rcases hshape with h | ⟨s1, tl, hr, hsz, h1, h1', hd⟩ |
      ⟨s1, s2, tl, hr, hsz, h1, h1', h2, h2', hd⟩ |
      ⟨s1, s2, s3, tl, hr, hsz, h1, h1', h2, h2', h3, h3', hd⟩
  · rw [h] at hv'
    simp at hv'
  · refine ⟨[b, s1], tl, [b, s1], 2, step_copy f b rest [b, s1] tl _ hb (by rw [hr]; rfl)
      (by simp) ?_ hd ?_ hv⟩
    · intro x hx
      simp only [List.mem_cons, List.mem_singleton, List.not_mem_nil, or_false] at hx
      rcases hx with rfl | rfl <;> assumption
    · omega
  · by_cases h28 : (b.val % 0x10) * 0x1000 + (s1.val % 0x40) * 0x40 + s2.val % 0x40 = 0x2028 ∨
        (b.val % 0x10) * 0x1000 + (s1.val % 0x40) * 0x40 + s2.val % 0x40 = 0x2029
    · have hb3 : 0xE0 ≤ b.val ∧ b.val < 0xF0 := by
        split_ifs at hsz <;> omega
      obtain ⟨henc, hhex⟩ := EncodeRune_three b s1 s2 _ hb3.1 hb3.2 h1 h1' h2 h2' rfl h28
      rw [hd] at hv'
      rw [if_neg (by simp)] at hv'
      simp only [] at hv'
      have hdrop : (b :: rest).drop 3 = tl := by rw [hr]; rfl
      rw [hdrop] at hv'
      refine ⟨[b, s1, s2], tl, [0x5C, 0x75, 0x32, 0x30, 0x32,
        hexDigit (((b.val % 0x10) * 0x1000 + (s1.val % 0x40) * 0x40 + s2.val % 0x40) % 16)],
        1, by rw [hr]; rfl, by simp, hv', ?_, le_refl _, ?_, ?_⟩
      · rw [appendStringLoop_succ, if_neg (by omega), DecodeRune_slice, hd]
        simp only []
        rw [if_neg (by simp), if_pos h28, hdrop]
      · simp
      · intro fuel X y tail h
        have := unquoteLoop_u fuel _ _ _ _ _ X y tail hhex (by omega) h
        rw [henc] at this
        exact this
    · refine ⟨[b, s1, s2], tl, [b, s1, s2], 3, step_copy f b rest [b, s1, s2] tl _ hb
        (by rw [hr]; rfl) (by simp) ?_ hd ?_ hv⟩
      · intro x hx
        simp only [List.mem_cons, List.mem_singleton, List.not_mem_nil, or_false] at hx
        rcases hx with rfl | rfl | rfl <;> assumption
      · omega
  · have hb4 : 0xF0 ≤ b.val := by
      split_ifs at hsz <;> omega
    have hb4' : b.val ≤ 0xF4 := by
      by_contra hcon
      rw [DecodeRune_cons, if_neg (by omega), if_pos (by omega)] at hd
      exact absurd (congrArg Prod.snd hd) (by simp)
    have hs1 : b.val = 0xF0 → 0x90 ≤ s1.val := by
      intro e
      by_contra hcon
      rw [DecodeRune_cons, if_neg (by omega), if_neg (by omega), hr] at hd
      have ha : (acceptInfo b).2.1 = 0x90 := by
        unfold acceptInfo; simp only []; rw [if_neg (by omega), if_pos e]
      unfold decodeMulti at hd
      rw [ha] at hd
      simp only [List.length_cons] at hd
      rw [if_neg (by rw [(acceptInfo_bounds b).1]; split_ifs <;> omega),
        if_pos (Or.inl (by omega))] at hd
      exact absurd (congrArg Prod.snd hd) (by simp)
    refine ⟨[b, s1, s2, s3], tl, [b, s1, s2, s3], 4, step_copy f b rest [b, s1, s2, s3] tl _ hb
      (by rw [hr]; rfl) (by simp) ?_ hd ?_ hv⟩
    · intro x hx
      simp only [List.mem_cons, List.mem_singleton, List.not_mem_nil, or_false] at hx
      rcases hx with rfl | rfl | rfl | rfl <;> assumption
    · constructor <;> intro hcon <;> omega

theorem unquote_appendStringLoop (f : Nat) : ∀ (s tail : GoString), s.length ≤ f →
    validLoop f s = true →
    ∃ fuel, fuel ≤ (appendStringLoop f s).length + 1 ∧
      unquoteLoop fuel (appendStringLoop f s ++ 0x22 :: tail) = some (s, tail) := by
  induction f with
  | zero =>
    intro s tail hlen _
    have : s = [] := List.length_eq_zero.1 (Nat.le_zero.1 hlen)
    subst this
    exact ⟨1, by simp [appendStringLoop], unquoteLoop_quote 0 tail⟩
  | succ f ih =>
    intro s tail hlen hv
    rcases s with _ | ⟨b, rest⟩
    · exact ⟨1, by simp [appendStringLoop], unquoteLoop_quote 0 tail⟩
    · have hstep : ∃ l tl out k, StepOk f (b :: rest) l tl out k := by
        by_cases hb : b.val < 0x80
        · exact ⟨_, _, _, _, step_ascii f b rest hb hv⟩
        · exact step_multi f b rest (by omega) hv
      obtain ⟨l, tl, out, k, hs, hl, hvt, happ, hk1, hk2, hread⟩ := hstep
      have hlt : tl.length ≤ f := by
        have := congrArg List.length hs
        simp only [List.length_cons, List.length_append] at this hlen
        omega
      obtain ⟨fuel, hfuel, hu⟩ := ih tl tail hlt hvt
      refine ⟨fuel + k, ?_, ?_⟩
      · rw [happ, List.length_append]; omega
      · rw [happ, List.append_assoc, hread fuel _ _ _ hu, hs]

theorem unquoteBody_of_loop (fuel : Nat) (X : GoString) (r : GoString × GoString)
    (h : unquoteLoop fuel X = some r) (hf : fuel ≤ X.length) : unquoteBody X = some r := by
  unfold unquoteBody
  obtain ⟨n, hn⟩ := Nat.exists_eq_add_of_le hf
  rw [hn]
  exact unquoteLoop_mono fuel X r h n

theorem unquoteBody_appendString (s tail : GoString) (hv : ValidString s = true) :
    unquoteBody (appendStringLoop s.length s ++ 0x22 :: tail) = some (s, tail) := by
  obtain ⟨fuel, hf, h⟩ := unquote_appendStringLoop s.length s tail (le_refl _) hv
  exact unquoteBody_of_loop fuel _ _ h (by rw [List.length_append, List.length_cons]; omega)

theorem unquoteBody_name (l tail : GoString)
    (hl : ∀ b ∈ l, 0x20 ≤ b.val ∧ b.val ≠ 0x22 ∧ b.val ≠ 0x5C) :
    unquoteBody (l ++ 0x22 :: tail) = some (l, tail) := by
  have h := unquoteLoop_plain_list l 1 (0x22 :: tail) [] tail hl (unquoteLoop_quote 0 tail)
  rw [List.append_nil] at h
  exact unquoteBody_of_loop _ _ _ h (by rw [List.length_append, List.length_cons]; omega)

theorem skipSpace_cons (b : Byte) (X : GoString)
    (h : ¬ (b.val = 0x20 ∨ b.val = 0x09 ∨ b.val = 0x0A ∨ b.val = 0x0D)) :
    skipSpace (b :: X) = b :: X := by
  simp only [skipSpace]
  rw [if_neg h]

theorem parseString_quote (X : GoString) : parseString (0x22 :: X) = unquoteBody X := by
  unfold parseString
  rw [skipSpace_cons _ _ (by decide)]
  simp only []
  rw [if_pos val_quote]

theorem parseMembers_comma (fuel : Nat) (s key s2 value s4 : GoString)
    (h1 : parseString s = some (key, 0x3A :: s2))
    (h2 : parseString s2 = some (value, 0x2C :: s4)) :
    parseMembers (fuel + 1) s = (parseMembers fuel s4).map fun ms => (key, value) :: ms := by
  simp only [parseMembers, h1]
  rw [skipSpace_cons _ _ (by decide)]
  simp only []
  rw [if_pos (by rfl)]
  simp only [h2]
  rw [skipSpace_cons _ _ (by decide)]
  simp only []
  rw [if_pos (by rfl)]

theorem parseMembers_close (fuel : Nat) (s key s2 value : GoString)
    (h1 : parseString s = some (key, 0x3A :: s2))
    (h2 : parseString s2 = some (value, [0x7D])) :
    parseMembers (fuel + 1) s = some [(key, value)] := by
  simp only [parseMembers, h1]
  rw [skipSpace_cons _ _ (by decide)]
  simp only []
  rw [if_pos (by rfl)]
  simp only [h2]
  rw [skipSpace_cons _ _ (by decide)]
  simp only []
  rw [if_neg (by decide), if_pos (by rfl)]
  simp [skipSpace]

theorem Marshal_eq (c p : GoString) :
    Marshal { Pin := c, RedirectTo := p } =
      0x7B :: 0x22 :: (lit "pin" ++ 0x22 :: 0x3A :: 0x22 ::
        (appendStringLoop c.length c ++ 0x22 :: 0x2C :: 0x22 :: (lit "redirectTo" ++
          0x22 :: 0x3A :: 0x22 :: (appendStringLoop p.length p ++ 0x22 :: [0x7D])))) := by
  have e1 : lit "\x7b\"pin\":" = 0x7B :: 0x22 :: (lit "pin" ++ [0x22, 0x3A]) := by decide
  have e2 : lit ",\"redirectTo\":" = 0x2C :: 0x22 :: (lit "redirectTo" ++ [0x22, 0x3A]) := by
    decide
  have e3 : lit "\x7d" = [0x7D] := by decide
  simp only [Marshal, appendString, e1, e2, e3, List.cons_append, List.append_assoc,
    List.nil_append, List.singleton_append]

set_option maxRecDepth 100000 in
theorem lit_pin_plain : ∀ b ∈ lit "pin", 0x20 ≤ b.val ∧ b.val ≠ 0x22 ∧ b.val ≠ 0x5C := by
  decide

set_option maxRecDepth 100000 in
theorem lit_redirectTo_plain :
    ∀ b ∈ lit "redirectTo", 0x20 ≤ b.val ∧ b.val ≠ 0x22 ∧ b.val ≠ 0x5C := by
  decide

theorem parseObject_Marshal (c p : GoString) (hc : ValidString c = true)
    (hp : ValidString p = true) :
    parseObject (Marshal { Pin := c, RedirectTo := p }) =
      some [(lit "pin", c), (lit "redirectTo", p)] := by
  rw [Marshal_eq]
  unfold parseObject
  rw [skipSpace_cons _ _ (by decide)]
  simp only []
  rw [if_pos (by rfl), skipSpace_cons _ _ (by decide)]
  simp only []
  rw [if_neg (by decide)]
  simp only [List.length_cons]
  have k1 := unquoteBody_name (lit "pin")
    (0x3A :: 0x22 :: (appendStringLoop c.length c ++ 0x22 :: 0x2C :: 0x22 ::
      (lit "redirectTo" ++ 0x22 :: 0x3A :: 0x22 ::
        (appendStringLoop p.length p ++ 0x22 :: [0x7D])))) lit_pin_plain
  have v1 := unquoteBody_appendString c (0x2C :: 0x22 :: (lit "redirectTo" ++
    0x22 :: 0x3A :: 0x22 :: (appendStringLoop p.length p ++ 0x22 :: [0x7D]))) hc
  have k2 := unquoteBody_name (lit "redirectTo")
    (0x3A :: 0x22 :: (appendStringLoop p.length p ++ 0x22 :: [0x7D])) lit_redirectTo_plain
  have v2 := unquoteBody_appendString p [0x7D] hp
  rw [← parseString_quote] at k1 v1 k2 v2
  rw [parseMembers_comma _ _ _ _ _ _ k1 v1]
  have hlen : ∃ n, (lit "pin" ++ 0x22 :: 0x3A :: 0x22 ::
      (appendStringLoop c.length c ++ 0x22 :: 0x2C :: 0x22 :: (lit "redirectTo" ++
        0x22 :: 0x3A :: 0x22 :: (appendStringLoop p.length p ++ 0x22 :: [0x7D])))).length + 1 =
      n + 1 := ⟨_, rfl⟩
  obtain ⟨n, hn⟩ := hlen
  rw [hn, parseMembers_close _ _ _ _ _ k2 v2]
  rfl

/-! ## Lemmas on the length of the token -/

theorem EncodeToString_length (s : GoString) :
    (EncodeToString s).length = 4 * ((s.length + 2) / 3) := by
  induction s using EncodeToString.induct with
  | case1 => rfl
  | case2 b0 => simp [EncodeToString]
  | case3 b0 b1 => simp [EncodeToString]
  | case4 b0 b1 b2 rest ih =>
    simp only [EncodeToString, List.length_append, List.length_cons, List.length_nil, ih]
    omega

theorem Marshal_length (c p : GoString) :
    (Marshal { Pin := c, RedirectTo := p }).length =
      26 + (appendStringLoop c.length c).length + (appendStringLoop p.length p).length := by
  rw [Marshal_eq]
  have h1 : (lit "pin").length = 3 := by decide
  have h2 : (lit "redirectTo").length = 10 := by decide
  simp only [List.length_cons, List.length_append, List.length_nil, h1, h2]
  omega

/-! ## The app host and the authenticated URL -/

/-- C8. For every API host `h`: if the first occurrence of `api.` in `h` is between `pre` and
`post`, the derived app host is `pre`, then `app.`, then `post` (so every other byte, any later
`api.` included, is unchanged); if `h` does not contain `api.`, the app host is `h`; the app
host has the length of `h`; and the app host of `https://api.example.com` is
`https://app.example.com`. -/
theorem appHost_replaces_first (h : GoString) :
    (∀ pre post, h = pre ++ lit "api." ++ post →
        (∀ pre' post', h = pre' ++ lit "api." ++ post' → pre.length ≤ pre'.length) →
        appHost h = pre ++ lit "app." ++ post) ∧
      ((∀ pre post, h ≠ pre ++ lit "api." ++ post) → appHost h = h) ∧
      (appHost h).length = h.length ∧
      appHost (lit "https://api.example.com") = lit "https://app.example.com" :=
  ⟨fun pre post h1 h2 => appHost_first h pre post ⟨h1, h2⟩, appHost_absent h, appHost_length h,
    by decide⟩

/-- Witness of C8: in `https://api.api.example.com` only the first `api.` is replaced. -/
theorem appHost_replaces_first_witness :
    appHost (lit "https://api.api.example.com") = lit "https://app.api.example.com" :=
  (appHost_replaces_first (lit "https://api.api.example.com")).1 (lit "https://")
    (lit "api.example.com") (by decide) (fun pre' post' h => by
      by_contra hlt
      have hs := startsWith_drop_of_eq _ _ _ _ h
      have hall : ∀ k < 8, startsWith (lit "api.") ((lit "https://api.api.example.com").drop k)
          = false := by decide
      rw [hall pre'.length (by simpa using hlt)] at hs
      cases hs)

/-- C10. For every API host `h`, sign-in code `c` and path `p`, the URL of
`OpenAuthenticatedURL` is the app host of `h`, then `/auth/`, then the encoded token. The
encoded token is the URL-safe base64 encoding of the JSON object with the members `pin` and
`redirectTo`: it decodes to that JSON text, and it has four characters for every three bytes
of the text, at least 36. Every byte of it is a character of the URL-safe base64 alphabet
(`A`-`Z`, `a`-`z`, `0`-`9`, `-`, `_`) or the padding `=`, hence none of `/`, `+`, `?`, `#`. -/
theorem authenticatedURL_shape (h msg c p : GoString) :
    OpenAuthenticatedURL (.ok c) h msg p =
        .ok (appHost h ++ lit "/auth/" ++
          EncodeToString (Marshal { Pin := c, RedirectTo := p })) ∧
      encodedToken c p = EncodeToString (lit "\x7b\"pin\":" ++ appendString c ++
        lit ",\"redirectTo\":" ++ appendString p ++ lit "\x7d") ∧
      DecodeString (encodedToken c p) = some (Marshal { Pin := c, RedirectTo := p }) ∧
      (encodedToken c p).length =
        4 * (((Marshal { Pin := c, RedirectTo := p }).length + 2) / 3) ∧
      36 ≤ (encodedToken c p).length ∧
      ∀ b ∈ encodedToken c p,
        ((0x41 ≤ b.val ∧ b.val ≤ 0x5A) ∨ (0x61 ≤ b.val ∧ b.val ≤ 0x7A) ∨
          (0x30 ≤ b.val ∧ b.val ≤ 0x39) ∨ b.val = 0x2D ∨ b.val = 0x5F ∨ b.val = 0x3D) ∧
        b.val ≠ 0x2F ∧ b.val ≠ 0x2B ∧ b.val ≠ 0x3F ∧ b.val ≠ 0x23 := by
  have hlen := EncodeToString_length (Marshal { Pin := c, RedirectTo := p })
  have hm := Marshal_length c p
  refine ⟨rfl, rfl, DecodeString_EncodeToString _, hlen, ?_, fun b hb => ?_⟩
  · unfold encodedToken
    rw [hlen, hm]
    omega
  · have hs : urlSafe b := EncodeToString_urlSafe _ b hb
    refine ⟨hs, ?_⟩
    unfold urlSafe at hs
    omega

/-- Witness of C10: the URL for the host `https://api.example.com`, the code `123456` and the
path `/plan/42`. -/
theorem authenticatedURL_shape_witness :
    OpenAuthenticatedURL (.ok (lit "123456")) (lit "https://api.example.com") (lit "Sign in")
        (lit "/plan/42") =
      .ok (lit ("https://app.example.com/auth/" ++
        "eyJwaW4iOiIxMjM0NTYiLCJyZWRpcmVjdFRvIjoiL3BsYW4vNDIifQ==")) :=
  (authenticatedURL_shape (lit "https://api.example.com") (lit "Sign in") (lit "123456")
    (lit "/plan/42")).1.trans (congrArg Except.ok (by decide))

/-! ## The sign-in token -/

/-- Counterexample to C9: the sign-in code made of the single byte `0xFF` is a Go string that
is not valid UTF-8. `json.Marshal` writes the escape of U+FFFD for that byte, so the token
decodes to the three bytes `EF BF BD`, not to the code. -/
theorem token_round_trip_fails_on_invalid_utf8 :
    ¬ ∀ c p : GoString,
        DecodeToken (encodedToken c p) = some { Pin := c, RedirectTo := p } := by
  intro h
  exact absurd (h [0xFF] (lit "/plan/42")) (by decide)

/-- C9, amended. For every sign-in code `c` and path `p` that are valid UTF-8, the token that
`OpenAuthenticatedURL` builds decodes, by URL-safe base64 decoding followed by JSON parsing,
to exactly the code `c` and the path `p`. -/
theorem token_round_trip (c p : GoString) (hc : ValidString c = true)
    (hp : ValidString p = true) :
    DecodeToken (encodedToken c p) = some { Pin := c, RedirectTo := p } := by
  unfold DecodeToken encodedToken
  rw [DecodeString_EncodeToString]
  simp only [parseObject_Marshal c p hc hp]
  have m1 : member (lit "pin") [(lit "pin", c), (lit "redirectTo", p)] = some c := by
    have : (lit "pin" == lit "redirectTo") = false := by decide
    simp [member, List.lookup, this]
  have m2 : member (lit "redirectTo") [(lit "pin", c), (lit "redirectTo", p)] = some p := by
    simp [member, List.lookup]
  simp only [m1, m2]

/-- Witness of amended C9: the code `123456` and the path `/plan/42`. -/
theorem token_round_trip_witness :
    DecodeToken (encodedToken (lit "123456") (lit "/plan/42")) =
      some { Pin := lit "123456", RedirectTo := lit "/plan/42" } :=
  token_round_trip (lit "123456") (lit "/plan/42") (by decide) (by decide)

end Plandex
